import Mathlib

/-!
Verification development for the terminology-export subsystem (a value-set
export pipeline).  The exporter implementation itself is not part of the
checked-in sources (only its test suite and an error index are), so every
operational definition below is modelled from the specification document,
with the behavior pinned by the expectations of the in-repository test
suite wherever the two are both explicit.  Definitions keep the source
names where they are known (export, exportValueSet, fshMap, ...).
-/

namespace SushiVS

/-- Source location of an authored construct (start/end line and column). -/
structure Location where
  startLine : Nat
  startColumn : Nat
  endLine : Nat
  endColumn : Nat
deriving DecidableEq, Repr

/-- File name plus location, attached to rules and entities. -/
structure SourceInfo where
  file : String
  location : Location
deriving DecidableEq, Repr

/-- Diagnostic severity level. -/
inductive Level where
  | error
  | warn
deriving DecidableEq, Repr

/-- Classification of a diagnostic, mirroring the error taxonomy of the spec. -/
inductive DiagKind where
  | duplicateConcept
  | missingCode
  | duplicateId
  | idSanitized
  | missingInclusion
  | invalidUri
  | conceptNotFound
  | otherKind
deriving DecidableEq, Repr

/-- Modelled from the spec: a leveled diagnostic message with an optional
primary source location. -/
structure Diagnostic where
  level : Level
  kind : DiagKind
  message : String
  src : Option SourceInfo
deriving DecidableEq, Repr

/-- Characters allowed in a FHIR id: letters, digits, hyphen and dot. -/
def idChar (c : Char) : Bool :=
  c.isAlpha || c.isDigit || c == '-' || c == '.'

/-- Replace every character outside the id alphabet with a hyphen. -/
def substituteIdChars (s : String) : String :=
  String.mk (s.data.map (fun c => if idChar c then c else '-'))

/-- Truncate a string to at most 64 characters. -/
def truncate64 (s : String) : String :=
  String.mk (s.data.take 64)

/-- Modelled from the spec: the IdentityValidator default-id derivation.
Disallowed characters are substituted with hyphens and the result is
truncated to length 64, substitution first. -/
def sanitizeId (s : String) : String :=
  String.mk ((s.data.map (fun c => if idChar c then c else '-')).take 64)

/-- A syntactically valid FHIR id: 1 to 64 characters from the id alphabet. -/
def isValidFhirId (s : String) : Bool :=
  decide (1 ≤ s.data.length) && decide (s.data.length ≤ 64) && s.data.all idChar

/-- A syntactically valid FHIR name: an uppercase letter followed by up to
254 letters, digits or underscores. -/
def isValidFhirName (s : String) : Bool :=
  match s.data with
  | [] => false
  | c :: cs => c.isUpper && decide (cs.length ≤ 254) && cs.all (fun d => d.isAlphanum || d == '_')

/-- Break a character list at the first occurrence of a separator, returning
the part before it and, when the separator occurs, the part after it. -/
def breakAtChar (sep : Char) : List Char → List Char × Option (List Char)
  | [] => ([], none)
  | c :: cs =>
    if c = sep then ([], some cs)
    else
      let r := breakAtChar sep cs
      (c :: r.1, r.2)

/-- Modelled from the spec: split a system reference at the FIRST pipe into
the system proper and the version; later pipe-delimited fragments stay
verbatim inside the version string. -/
def splitSystemVersion (s : String) : String × Option String :=
  let r := breakAtChar '|' s.data
  (String.mk r.1, r.2.map String.mk)

/-- A JSON-like output tree for compiled documents. -/
inductive JValue where
  | null
  | str (s : String)
  | num (n : Int)
  | obj (fields : List (String × JValue))
  | arr (elems : List JValue)
deriving Repr

/-- Index form attached to one path segment. -/
inductive SegIdx where
  | flat
  | pos (n : Nat)
  | softPlus
  | softEq
deriving DecidableEq, Repr

/-- One segment of an addressing expression: a field name plus index form. -/
structure Seg where
  name : String
  idx : SegIdx
deriving DecidableEq, Repr

/-- Transient soft-index state: a mapping from rendered path keys to the
last index produced for that key. -/
abbrev SIMap := List (String × Nat)

/-- Set a key in the soft-index map, overwriting an existing binding. -/
def assocSet (m : SIMap) (k : String) (v : Nat) : SIMap :=
  match m with
  | [] => [(k, v)]
  | (k0, v0) :: rest => if k0 = k then (k, v) :: rest else (k0, v0) :: assocSet rest k v

/-- Render the map key for a segment name under an enclosing key. -/
def segKey (pre : String) (name : String) : String :=
  if pre = "" then name else pre ++ "." ++ name

/-- Modelled from the spec: resolve the soft indices of one path under the
current transient map.  A plus advances the per-key counter to the next
free slot, an equals reuses the most recent index for that key, and keys
of deeper segments embed the resolved indices of the enclosing ones. -/
def resolveSegs (m : SIMap) (pre : String) : List Seg → List (String × Option Nat) × SIMap
  | [] => ([], m)
  | s :: rest =>
    let key := segKey pre s.name
    match s.idx with
    | SegIdx.flat =>
      let r := resolveSegs m key rest
      ((s.name, none) :: r.1, r.2)
    | SegIdx.pos n =>
      let r := resolveSegs (assocSet m key n) (key ++ "[" ++ toString n ++ "]") rest
      ((s.name, some n) :: r.1, r.2)
    | SegIdx.softPlus =>
      let n := match m.lookup key with
        | some k => k + 1
        | none => 0
      let r := resolveSegs (assocSet m key n) (key ++ "[" ++ toString n ++ "]") rest
      ((s.name, some n) :: r.1, r.2)
    | SegIdx.softEq =>
      let n := (m.lookup key).getD 0
      let r := resolveSegs m (key ++ "[" ++ toString n ++ "]") rest
      ((s.name, some n) :: r.1, r.2)

/-- Resolve a sequence of paths in order, threading one transient map.
The map starts empty for each traversal and is never persisted. -/
def resolvePaths (m : SIMap) : List (List Seg) → List (List (String × Option Nat))
  | [] => []
  | p :: rest =>
    let r := resolveSegs m "" p
    r.1 :: resolvePaths r.2 rest

/-- An authored concept of a component rule: code plus optional display. -/
structure FshCode where
  code : String
  display : Option String
deriving DecidableEq, Repr

/-- A filter entry of a filter component rule, kept verbatim. -/
structure VSFilter where
  property : String
  op : String
  value : String
deriving DecidableEq, Repr

/-- Modelled from the spec: the closed variant set of rules a value-set
entity may carry.  Component rules carry their polarity, their source
(system reference and value-set references) and their payload; caret rules
carry an addressing path and a value; code caret rules additionally carry
the concept selector; insert rules name a rule set. -/
inductive VSRule where
  | conceptComp (included : Bool) (fromSystem : Option String)
      (fromValueSets : List String) (concepts : List FshCode) (src : Option SourceInfo)
  | filterComp (included : Bool) (fromSystem : Option String)
      (fromValueSets : List String) (filters : List VSFilter) (src : Option SourceInfo)
  | caretRule (path : List Seg) (value : JValue) (src : Option SourceInfo)
  | codeCaretRule (selector : String) (path : List Seg) (value : JValue) (src : Option SourceInfo)
  | insertRule (ruleSetName : String) (src : Option SourceInfo)
deriving Repr

/-- A value-set entity: name, optional explicit id, optional source
information and an ordered rule list. -/
structure FshValueSet where
  name : String
  explicitId : Option String
  src : Option SourceInfo
  rules : List VSRule
deriving Repr

/-- A reusable named rule group, referenced by insert rules. -/
structure RuleSetDef where
  name : String
  rules : List VSRule
deriving Repr

/-- A local code system visible to the resolver: its name, id, optional
canonical-url override, content mode (complete unless declared otherwise)
and concept enumeration. -/
structure LocalCodeSystem where
  name : String
  id : String
  urlOverride : Option String
  content : String
  codes : List String
deriving DecidableEq, Repr

/-- The read-only lookup environment of one run. -/
structure Env where
  canonical : String
  localSystems : List LocalCodeSystem
  ruleSets : List RuleSetDef
deriving Repr

/-- Canonical url of a local code system: the override when present, else
the configured canonical base extended with the system id. -/
def csUrl (env : Env) (cs : LocalCodeSystem) : String :=
  match cs.urlOverride with
  | some u => u
  | none => env.canonical ++ "/CodeSystem/" ++ cs.id

/-- Modelled from the spec: EntityResolver lookup of a code-system
reference, by exact name first, then id, then canonical url. -/
def resolveSystem (env : Env) (base : String) : Option LocalCodeSystem :=
  match env.localSystems.find? (fun cs => cs.name == base) with
  | some cs => some cs
  | none =>
    match env.localSystems.find? (fun cs => cs.id == base) with
    | some cs => some cs
    | none => env.localSystems.find? (fun cs => csUrl env cs == base)

/-- Resolved url of a system reference: the canonical url of a matching
local system, or the reference itself as an assumed external reference. -/
def resolvedSystemUrl (env : Env) (base : String) : String :=
  match resolveSystem env base with
  | some cs => csUrl env cs
  | none => base

/-- Recognize an absolute url reference by the scheme separator. -/
def hasSchemeSep : List Char → Bool
  | ':' :: '/' :: '/' :: _ => true
  | _ :: cs => hasSchemeSep cs
  | [] => false

/-- A syntactically valid absolute reference string. -/
def isAbsoluteUrl (s : String) : Bool :=
  hasSchemeSep s.data

/-- A concept placed in a compose group: code, optional display, and the
tree of metadata assigned at the concept through caret rules. -/
structure VSConcept where
  code : String
  display : Option String
  caretData : JValue
deriving Repr

/-- One bucket of the compose assembler: terminology components sharing a
system, version and value-set context within one polarity. -/
structure ComposeGroup where
  system : Option String
  version : Option String
  valueSetRefs : List String
  concepts : List VSConcept
  filters : List VSFilter
deriving Repr

/-- The key a compose group is deduplicated by within its polarity. -/
def groupKey (g : ComposeGroup) : Option String × Option String × List String :=
  (g.system, g.version, g.valueSetRefs)

/-- Find-or-create the group with a given key, appending in first-seen
order when new. -/
def ensureGroup (gs : List ComposeGroup) (sys ver : Option String)
    (vsRefs : List String) : List ComposeGroup :=
  if gs.any (fun g => decide (groupKey g = (sys, ver, vsRefs))) then gs
  else gs ++ [⟨sys, ver, vsRefs, [], []⟩]

/-- Append one concept to the group with the given key, creating the group
at the end when no group carries the key. -/
def addConceptToGroups (gs : List ComposeGroup) (sys ver : Option String)
    (vsRefs : List String) (c : FshCode) : List ComposeGroup :=
  match gs with
  | [] => [⟨sys, ver, vsRefs, [⟨c.code, c.display, JValue.null⟩], []⟩]
  | g :: rest =>
    if groupKey g = (sys, ver, vsRefs) then
      { g with concepts := g.concepts ++ [⟨c.code, c.display, JValue.null⟩] } :: rest
    else g :: addConceptToGroups rest sys ver vsRefs c

/-- Append the filters of a filter rule to the group with the given key. -/
def addFiltersToGroups (gs : List ComposeGroup) (sys ver : Option String)
    (vsRefs : List String) (fs : List VSFilter) : List ComposeGroup :=
  match gs with
  | [] => [⟨sys, ver, vsRefs, [], fs⟩]
  | g :: rest =>
    if groupKey g = (sys, ver, vsRefs) then
      { g with filters := g.filters ++ fs } :: rest
    else g :: addFiltersToGroups rest sys ver vsRefs fs

/-- Does some concept of this group carry the given code. -/
def groupHasCode (g : ComposeGroup) (code : String) : Bool :=
  g.concepts.any (fun c => c.code == code)

/-- Does a prior occurrence of the same system, version and code exist in
any group of this polarity bucket. -/
def bucketHasTriple (gs : List ComposeGroup) (sys ver : Option String)
    (code : String) : Bool :=
  gs.any (fun g => decide (g.system = sys) && decide (g.version = ver) && groupHasCode g code)

/-- Render a system optionally qualified with its version. -/
def sysWithVer (sys ver : Option String) : String :=
  sys.getD "" ++ (match ver with
    | some v => "|" ++ v
    | none => "")

/-- Message of the duplicate-concept warning, naming the already-included
system and code, version-qualified when a version is present. -/
def duplicateWarning (vsName : String) (sys ver : Option String) (code : String) : String :=
  "ValueSet " ++ vsName ++ " already includes " ++ sysWithVer sys ver ++ "#" ++ code

/-- Modelled from the spec: append the codes of one concept-bearing rule in
given order, skipping re-insertion of a code whose system, version and code
already occur in any group of the same polarity and emitting one warning
per duplicate occurrence at the duplicate rule location. -/
def addRuleCodes (vsName : String) (sys ver : Option String) (vsRefs : List String)
    (src : Option SourceInfo) : List FshCode → List ComposeGroup →
    List ComposeGroup × List Diagnostic
  | [], gs => (gs, [])
  | c :: rest, gs =>
    if bucketHasTriple gs sys ver c.code then
      let r := addRuleCodes vsName sys ver vsRefs src rest gs
      (r.1, ⟨Level.warn, DiagKind.duplicateConcept, duplicateWarning vsName sys ver c.code, src⟩ :: r.2)
    else
      let r := addRuleCodes vsName sys ver vsRefs src rest (addConceptToGroups gs sys ver vsRefs c)
      (r.1, r.2)

/-- Join quoted code strings with commas, for the plural membership error. -/
def quoteJoin : List String → String
  | [] => ""
  | [c] => "\"" ++ c ++ "\""
  | c :: rest => "\"" ++ c ++ "\", " ++ quoteJoin rest

/-- Message of the code-membership error: singular phrasing for one missing
code, plural phrasing listing the codes for several. -/
def missingCodeMessage (refName : String) (missing : List String) : String :=
  match missing with
  | [c] => "Code \"" ++ c ++ "\" is not defined for system " ++ refName ++ "."
  | cs => "Codes " ++ quoteJoin cs ++ " are not defined for system " ++ refName ++ "."

/-- Modelled from the spec: when the resolved system is a local system
declared complete, collect the codes of the rule absent from its concept
enumeration and emit a single error for the whole rule; a fragment,
example or supplement system is not authoritative and yields no error. -/
def missingCodesDiag (env : Env) (base : String) (codes : List FshCode)
    (src : Option SourceInfo) : List Diagnostic :=
  match resolveSystem env base with
  | none => []
  | some cs =>
    if cs.content = "complete" then
      match codes.filter (fun c => !(cs.codes.contains c.code)) with
      | [] => []
      | missing => [⟨Level.error, DiagKind.missingCode, missingCodeMessage base (missing.map FshCode.code), src⟩]
    else []

/-- Working state of the compose assembler for one entity. -/
structure ComposeState where
  includes : List ComposeGroup
  excludes : List ComposeGroup
  diags : List Diagnostic
deriving Repr

/-- Resolved system and version of a component rule. -/
def resolveFromSystem (env : Env) : Option String → Option String × Option String
  | some s =>
    let p := splitSystemVersion s
    (some (resolvedSystemUrl env p.1), p.2)
  | none => (none, none)

/-- Modelled from the spec: process one ordered component rule, finding or
creating its group within the matching polarity bucket, appending concepts
with duplicate suppression, appending filters verbatim, and performing the
completeness membership check once per concept rule. -/
def processComponent (env : Env) (vsName : String) (st : ComposeState) :
    VSRule → ComposeState
  | VSRule.conceptComp included fromSys fromVS concepts src =>
    let sv := resolveFromSystem env fromSys
    let bucket := if included then st.includes else st.excludes
    let r := addRuleCodes vsName sv.1 sv.2 fromVS src concepts (ensureGroup bucket sv.1 sv.2 fromVS)
    let memDiags := match fromSys with
      | some s => missingCodesDiag env (splitSystemVersion s).1 concepts src
      | none => []
    if included then
      { st with includes := r.1, diags := st.diags ++ r.2 ++ memDiags }
    else
      { st with excludes := r.1, diags := st.diags ++ r.2 ++ memDiags }
  | VSRule.filterComp included fromSys fromVS filters _ =>
    let sv := resolveFromSystem env fromSys
    if included then
      { st with includes := addFiltersToGroups (ensureGroup st.includes sv.1 sv.2 fromVS) sv.1 sv.2 fromVS filters }
    else
      { st with excludes := addFiltersToGroups (ensureGroup st.excludes sv.1 sv.2 fromVS) sv.1 sv.2 fromVS filters }
  | _ => st

/-- Read an object field, yielding null when absent or not an object. -/
def getField (t : JValue) (n : String) : JValue :=
  match t with
  | JValue.obj fs => (fs.lookup n).getD JValue.null
  | _ => JValue.null

/-- Set a field of an ordered association list, keeping order. -/
def setAssocField : List (String × JValue) → String → JValue → List (String × JValue)
  | [], n, v => [(n, v)]
  | (k, w) :: rest, n, v =>
    if k = n then (n, v) :: rest else (k, w) :: setAssocField rest n v

/-- Set an object field, creating an object node on demand. -/
def setField (t : JValue) (n : String) (v : JValue) : JValue :=
  match t with
  | JValue.obj fs => JValue.obj (setAssocField fs n v)
  | _ => JValue.obj [(n, v)]

/-- View a value as an array element list. -/
def getArr (t : JValue) : List JValue :=
  match t with
  | JValue.arr es => es
  | _ => []

/-- Set position i of an element list, padding with nulls on demand. -/
def setAt : List JValue → Nat → JValue → List JValue
  | [], 0, v => [v]
  | [], Nat.succ k, v => JValue.null :: setAt [] k v
  | _ :: rest, 0, v => v :: rest
  | e :: rest, Nat.succ k, v => e :: setAt rest k v

/-- Modelled from the spec: type-directed assignment of a value at a
resolved path, creating intermediate object and array nodes on demand. -/
def setPath : List (String × Option Nat) → JValue → JValue → JValue
  | [], _, v => v
  | (n, none) :: rest, t, v =>
    setField t n (setPath rest (getField t n) v)
  | (n, some i) :: rest, t, v =>
    let es := getArr (getField t n)
    setField t n (JValue.arr (setAt es i (setPath rest (es.getD i JValue.null) v)))

/-- The entity-level caret rules of a rule list, in order. -/
def vsCaretRules (rules : List VSRule) : List (List Seg × JValue) :=
  rules.filterMap (fun r => match r with
    | VSRule.caretRule p v _ => some (p, v)
    | _ => none)

/-- Apply already-resolved assignments in order to an output tree. -/
def applyResolved : List (List (String × Option Nat) × JValue) → JValue → JValue
  | [], t => t
  | (p, v) :: rest, t => applyResolved rest (setPath p t v)

/-- Modelled from the spec: one rule-application pass over the entity-level
caret rules.  The soft-index map starts empty for the pass, covers all the
entity caret paths in rule order, and is discarded afterwards. -/
def applyVSCaretRules (rules : List VSRule) (t : JValue) : JValue :=
  let prs := vsCaretRules rules
  applyResolved ((resolvePaths [] (prs.map Prod.fst)).zip (prs.map Prod.snd)) t

/-- Parse a concept selector of the form system#code or
system|version#code into its resolved parts. -/
def parseSelector (s : String) : String × Option String × String :=
  let h := breakAtChar '#' s.data
  let sv := splitSystemVersion (String.mk h.1)
  (sv.1, sv.2, String.mk (h.2.getD []))

/-- Does this group match a concept selector: same system, same version
when the selector carries one, and the code present. -/
def groupMatchesSelector (g : ComposeGroup) (sys : String) (ver : Option String)
    (code : String) : Bool :=
  decide (g.system = some sys) &&
    (match ver with
      | some v => decide (g.version = some v)
      | none => true) &&
    groupHasCode g code

/-- Apply an assignment to the first concept with the given code. -/
def applyInConcepts (path : List (String × Option Nat)) (v : JValue)
    (code : String) : List VSConcept → List VSConcept
  | [] => []
  | c :: rest =>
    if c.code = code then { c with caretData := setPath path c.caretData v } :: rest
    else c :: applyInConcepts path v code rest

/-- Apply an assignment at the matching concept of the first group the
selector matches. -/
def applyInGroups (sys : String) (ver : Option String) (code : String)
    (path : List (String × Option Nat)) (v : JValue) : List ComposeGroup → List ComposeGroup
  | [] => []
  | g :: rest =>
    if groupMatchesSelector g sys ver code then
      { g with concepts := applyInConcepts path v code g.concepts } :: rest
    else g :: applyInGroups sys ver code path v rest

/-- Modelled from the spec: apply one caret rule addressed at a concept.
The selector must already match a concept of the assembled inclusion or
exclusion list; with no match the rule fails with a concept-not-found
error and is skipped, and no concept is ever fabricated. -/
def applyCodeCaretRule (env : Env) (includes excludes : List ComposeGroup)
    (selector : String) (path : List Seg) (v : JValue) (src : Option SourceInfo) :
    List ComposeGroup × List ComposeGroup × List Diagnostic :=
  if includes.any (fun g => groupMatchesSelector g (resolvedSystemUrl env (parseSelector selector).1)
      (parseSelector selector).2.1 (parseSelector selector).2.2) then
    (applyInGroups (resolvedSystemUrl env (parseSelector selector).1)
      (parseSelector selector).2.1 (parseSelector selector).2.2
      (resolveSegs [] "" path).1 v includes, excludes, [])
  else if excludes.any (fun g => groupMatchesSelector g (resolvedSystemUrl env (parseSelector selector).1)
      (parseSelector selector).2.1 (parseSelector selector).2.2) then
    (includes, applyInGroups (resolvedSystemUrl env (parseSelector selector).1)
      (parseSelector selector).2.1 (parseSelector selector).2.2
      (resolveSegs [] "" path).1 v excludes, [])
  else
    (includes, excludes,
      [⟨Level.error, DiagKind.conceptNotFound,
        "Could not find concept "
          ++ sysWithVer (some (resolvedSystemUrl env (parseSelector selector).1))
            (parseSelector selector).2.1
          ++ "#" ++ (parseSelector selector).2.2 ++ ", skipping rule.",
        src⟩])

/-- Apply the code caret rules of a rule list in order. -/
def applyCodeCaretRules (env : Env) (rules : List VSRule)
    (includes excludes : List ComposeGroup) :
    List ComposeGroup × List ComposeGroup × List Diagnostic :=
  match rules with
  | [] => (includes, excludes, [])
  | VSRule.codeCaretRule selector path v src :: rest =>
    let r := applyCodeCaretRule env includes excludes selector path v src
    let r2 := applyCodeCaretRules env rest r.1 r.2.1
    (r2.1, r2.2.1, r.2.2 ++ r2.2.2)
  | _ :: rest => applyCodeCaretRules env rest includes excludes

/-- Modelled from the spec: IdentityValidator id finalization.  An explicit
id override is used verbatim; otherwise a name that is already a valid id
becomes the id, and a name valid as a name but not as an id is sanitized
with one warning. -/
def deriveId (vs : FshValueSet) : String × List Diagnostic :=
  match vs.explicitId with
  | some i => (i, [])
  | none =>
    if isValidFhirId vs.name then (vs.name, [])
    else
      let sid := sanitizeId vs.name
      if isValidFhirName vs.name then
        (sid,
          [⟨Level.warn, DiagKind.idSanitized,
            "The string \"" ++ vs.name ++
              "\" represents a valid FHIR name but not a valid FHIR id. The id will be exported as \"" ++
              sid ++ "\"", vs.src⟩])
      else
        (sid,
          [⟨Level.error, DiagKind.otherKind,
            "The string \"" ++ vs.name ++ "\" does not represent a valid FHIR id", vs.src⟩])

/-- Is this rule a terminology component rule. -/
def isComponentRule : VSRule → Bool
  | VSRule.conceptComp _ _ _ _ _ => true
  | VSRule.filterComp _ _ _ _ _ => true
  | _ => false

/-- Is this rule an inclusion component rule. -/
def isIncludedComponent : VSRule → Bool
  | VSRule.conceptComp true _ _ _ _ => true
  | VSRule.filterComp true _ _ _ _ => true
  | _ => false

/-- First reference of one component rule that is neither resolvable nor a
syntactically valid absolute reference. -/
def ruleInvalidRef (env : Env) : VSRule → Option String
  | VSRule.conceptComp _ fromSys fromVS _ _ =>
    match fromSys.filter (fun s =>
        let b := (splitSystemVersion s).1
        !((resolveSystem env b).isSome || isAbsoluteUrl b)) with
    | some s => some s
    | none => fromVS.find? (fun r => !isAbsoluteUrl (splitSystemVersion r).1)
  | VSRule.filterComp _ fromSys fromVS _ _ =>
    match fromSys.filter (fun s =>
        let b := (splitSystemVersion s).1
        !((resolveSystem env b).isSome || isAbsoluteUrl b)) with
    | some s => some s
    | none => fromVS.find? (fun r => !isAbsoluteUrl (splitSystemVersion r).1)
  | _ => none

/-- First invalid component reference of a rule list. -/
def firstInvalidRef (env : Env) (rules : List VSRule) : Option String :=
  rules.findSome? (ruleInvalidRef env)

/-- A compiled value-set document, restricted to the fields the claims
concern: identity, the compose buckets and the entity-level caret tree,
plus the source information used for provenance. -/
structure ExportedVS where
  name : String
  id : String
  includes : List ComposeGroup
  excludes : List ComposeGroup
  caretData : JValue
  src : Option SourceInfo
deriving Repr

/-- Message of the missing-inclusion structural error. -/
def missingInclusionMessage (vsName : String) : String :=
  "ValueSet " ++ vsName ++ " has a logical definition without inclusions"

/-- The compose buckets and diagnostics assembled from the ordered
component rules of one entity. -/
def composeStateOf (env : Env) (vs : FshValueSet) : ComposeState :=
  vs.rules.foldl (processComponent env vs.name) ⟨[], [], []⟩

/-- The compose buckets of one entity after its code caret rules. -/
def codeCaretResult (env : Env) (vs : FshValueSet) :
    List ComposeGroup × List ComposeGroup × List Diagnostic :=
  applyCodeCaretRules env vs.rules (composeStateOf env vs).includes (composeStateOf env vs).excludes

/-- Modelled from the spec: compile one value-set entity.  Identity is
finalized, the compose buckets are assembled from the component rules in
order, an entity with components but no resulting inclusion is dropped
with a missing-inclusion error, an entity with an invalid component
reference is dropped with an invalid-uri error, and the caret rules are
applied last. -/
def exportValueSet (env : Env) (vs : FshValueSet) : Option ExportedVS × List Diagnostic :=
  if vs.rules.any isComponentRule && (composeStateOf env vs).includes.isEmpty then
    (none, (deriveId vs).2 ++ (composeStateOf env vs).diags ++
      [⟨Level.error, DiagKind.missingInclusion, missingInclusionMessage vs.name, vs.src⟩])
  else
    match firstInvalidRef env vs.rules with
    | some bad =>
      (none, (deriveId vs).2 ++ (composeStateOf env vs).diags ++
        [⟨Level.error, DiagKind.invalidUri, bad ++ " is not a valid URI", vs.src⟩])
    | none =>
      (some ⟨vs.name, (deriveId vs).1, (codeCaretResult env vs).1, (codeCaretResult env vs).2.1,
          applyVSCaretRules vs.rules JValue.null, vs.src⟩,
        (deriveId vs).2 ++ (composeStateOf env vs).diags ++ (codeCaretResult env vs).2.2)

/-- Replace each insert rule by the rules of its rule set; an insert naming
an absent rule set is dropped, scoped to that rule only. -/
def spliceOnce (env : Env) : List VSRule → List VSRule
  | [] => []
  | VSRule.insertRule n _ :: rest =>
    (match env.ruleSets.find? (fun rs => rs.name == n) with
      | some rs => rs.rules
      | none => []) ++ spliceOnce env rest
  | r :: rest => r :: spliceOnce env rest

/-- Does a rule list still contain an unexpanded insert rule. -/
def hasInsert (rules : List VSRule) : Bool :=
  rules.any (fun r => match r with
    | VSRule.insertRule _ _ => true
    | _ => false)

/-- Modelled from the spec: RuleSetExpander iteration toward a fixed point
with no unexpanded insert rules, bounded here by explicit fuel. -/
def expandRules (env : Env) : Nat → List VSRule → List VSRule
  | 0, rs => rs
  | Nat.succ fuel, rs => if hasInsert rs then expandRules env fuel (spliceOnce env rs) else rs

/-- Expand the insert rules of one entity before export. -/
def expandVS (env : Env) (vs : FshValueSet) : FshValueSet :=
  { vs with rules := expandRules env 100 vs.rules }

/-- Provenance entry of one exported entity. -/
structure FshMapEntry where
  file : String
  location : Location
  fshName : String
  fshType : String
deriving DecidableEq, Repr

/-- File of an optional source, empty when absent. -/
def srcFile (s : Option SourceInfo) : String :=
  match s with
  | some si => si.file
  | none => ""

/-- Location of an optional source, zeroed when absent. -/
def srcLoc (s : Option SourceInfo) : Location :=
  match s with
  | some si => si.location
  | none => ⟨0, 0, 0, 0⟩

/-- Output key of an exported entity: kind, id and the output extension. -/
def outputKey (v : ExportedVS) : String :=
  "ValueSet-" ++ v.id ++ ".json"

/-- Provenance value of an exported entity: source file, location, entity
name and entity kind. -/
def fshMapEntry (v : ExportedVS) : FshMapEntry :=
  ⟨srcFile v.src, srcLoc v.src, v.name, "ValueSet"⟩

/-- Cumulative package built by the orchestrator: exported entities in
order, the provenance map, and the diagnostic sequence. -/
structure PackageState where
  valueSets : List ExportedVS
  fshMap : List (String × FshMapEntry)
  diags : List Diagnostic
deriving Repr

/-- The empty package of a freshly constructed orchestrator. -/
def initPackage : PackageState :=
  ⟨[], [], []⟩

/-- Names of the entities already exported into the package. -/
def exportedNames (st : PackageState) : List String :=
  st.valueSets.map ExportedVS.name

/-- Push one compiled entity: record its provenance entry and emit the
duplicate-id diagnostic when another exported entity already carries its
final id, attributed to the later occurrence; both entities remain. -/
def pushExported (st : PackageState) (v : ExportedVS) (vsrc : Option SourceInfo) : PackageState :=
  let dupDiags :=
    if st.valueSets.any (fun w => w.id == v.id) then
      [⟨Level.error, DiagKind.duplicateId, "Multiple value sets with id " ++ v.id, vsrc⟩]
    else []
  ⟨st.valueSets ++ [v], st.fshMap ++ [(outputKey v, fshMapEntry v)], st.diags ++ dupDiags⟩

/-- Modelled from the spec: one orchestrator step.  An entity whose
identity is already in the exported set is skipped; otherwise it is
compiled, and on success pushed into the package. -/
def exportStep (env : Env) (st : PackageState) (vs : FshValueSet) : PackageState :=
  if st.valueSets.any (fun w => w.name == vs.name) then st
  else
    let r := exportValueSet env vs
    match r.1 with
    | some v => pushExported { st with diags := st.diags ++ r.2 } v vs.src
    | none => { st with diags := st.diags ++ r.2 }

/-- Fold the orchestrator step over an expanded document list. -/
def exportFold (env : Env) (st : PackageState) (docs : List FshValueSet) : PackageState :=
  docs.foldl (exportStep env) st

/-- Modelled from the spec: ExportOrchestrator export over a document set.
Rule-set expansion reaches its fixed point over all entities before any
entity is exported, then each entity is compiled at most once per
orchestrator instance. -/
def exportAll (env : Env) (docs : List FshValueSet) (st : PackageState) : PackageState :=
  exportFold env st (docs.map (expandVS env))

/-! Concrete inputs mirroring the scenarios of the repository test suite. -/

/-- The minimal configuration environment with no local systems. -/
def envMin : Env :=
  ⟨"http://hl7.org/fhir/us/minimal", [], []⟩

/-- A value set whose valid name is not a valid id. -/
def vsNotGood : FshValueSet :=
  ⟨"Not_good_id", none, some ⟨"Wrong.fsh", ⟨2, 8, 5, 18⟩⟩, []⟩

/-- A 70 character valid name. -/
def name70 : String :=
  String.mk ('A' :: List.replicate 69 'a')

/-- A value set with a 70 character valid name. -/
def vsLong : FshValueSet :=
  ⟨name70, none, some ⟨"Wrong.fsh", ⟨2, 8, 5, 18⟩⟩, []⟩

/-- First of two value sets sharing an explicit id. -/
def vsFirst : FshValueSet :=
  ⟨"FirstVS", some "my-value-set", some ⟨"ValueSets.fsh", ⟨2, 8, 5, 15⟩⟩, []⟩

/-- Second of two value sets sharing an explicit id. -/
def vsSecond : FshValueSet :=
  ⟨"SecondVS", some "my-value-set", some ⟨"ValueSets.fsh", ⟨7, 8, 9, 19⟩⟩, []⟩

/-- A value set with source information, for the provenance map. -/
def vsMy : FshValueSet :=
  ⟨"MyValueSet", none, some ⟨"VS.fsh", ⟨3, 6, 30, 34⟩⟩, []⟩

/-- A value set with no rules at all. -/
def vsEmptyRules : FshValueSet :=
  ⟨"BreakfastVS", none, none, []⟩

/-- The food system reference url used by several scenarios. -/
def foodUrl : String :=
  "http://food.org/food"

/-- The duplicate-concept scenario: five inclusion rules re-including
Pizza, Salad and versioned Toast. -/
def vsDinnerDup : FshValueSet :=
  ⟨"DinnerVS", none, none,
    [VSRule.conceptComp true (some foodUrl) [] [⟨"Pizza", some "Delicious pizza to share."⟩]
        (some ⟨"Dinner.fsh", ⟨2, 0, 2, 15⟩⟩),
      VSRule.conceptComp true (some foodUrl) []
        [⟨"Pizza", some "Delicious pizza to share."⟩,
          ⟨"Salad", some "Plenty of fresh vegetables."⟩,
          ⟨"Toast", none⟩]
        (some ⟨"Dinner.fsh", ⟨3, 0, 4, 16⟩⟩),
      VSRule.conceptComp true (some (foodUrl ++ "|2.0.1")) [] [⟨"Toast", none⟩]
        (some ⟨"Dinner.fsh", ⟨5, 0, 5, 17⟩⟩),
      VSRule.conceptComp true (some foodUrl) [] [⟨"Salad", some "Plenty of fresh vegetables."⟩]
        (some ⟨"Dinner.fsh", ⟨6, 0, 6, 18⟩⟩),
      VSRule.conceptComp true (some (foodUrl ++ "|2.0.1")) []
        [⟨"Toast", none⟩, ⟨"Waffles", none⟩]
        (some ⟨"Dinner.fsh", ⟨7, 0, 9, 19⟩⟩)]⟩

/-- A complete local food system enumerating only Pizza. -/
def foodCSComplete : LocalCodeSystem :=
  ⟨"FoodCS", "food", none, "complete", ["Pizza"]⟩

/-- Environment with the complete local food system. -/
def envComplete : Env :=
  ⟨"http://hl7.org/fhir/us/minimal", [foodCSComplete], []⟩

/-- One inclusion with one code absent from the complete system. -/
def vsDinnerMissing : FshValueSet :=
  ⟨"DinnerVS", none, none,
    [VSRule.conceptComp true (some "FoodCS") []
        [⟨"Pizza", some "Delicious pizza to share."⟩,
          ⟨"Salad", some "Plenty of fresh vegetables."⟩]
        (some ⟨"ValueSets.fsh", ⟨12, 0, 13, 22⟩⟩)]⟩

/-- A complete local food system with a canonical url override. -/
def foodCSUrl : LocalCodeSystem :=
  ⟨"FoodCS", "food", some foodUrl, "complete", ["Pizza"]⟩

/-- Environment with the url-bearing complete local food system. -/
def envCompleteUrl : Env :=
  ⟨"http://hl7.org/fhir/us/minimal", [foodCSUrl], []⟩

/-- One inclusion with two codes absent from the complete system. -/
def vsDinnerMissingTwo : FshValueSet :=
  ⟨"DinnerVS", none, none,
    [VSRule.conceptComp true (some "FoodCS") []
        [⟨"Pizza", some "Delicious pizza to share."⟩,
          ⟨"Salad", some "Plenty of fresh vegetables."⟩,
          ⟨"Mulch", some "Somebody likes to eat mulch."⟩]
        (some ⟨"ValueSets.fsh", ⟨12, 0, 13, 22⟩⟩)]⟩

/-- The identical fragment system: same absence, no authority. -/
def foodCSFragment : LocalCodeSystem :=
  ⟨"FoodCS", "food", none, "fragment", ["Pizza"]⟩

/-- Environment with the fragment local food system. -/
def envFragment : Env :=
  ⟨"http://hl7.org/fhir/us/minimal", [foodCSFragment], []⟩

/-- A supplement system read from an instance declaration. -/
def foodCSSupplement : LocalCodeSystem :=
  ⟨"FoodCS", "FoodCS", some "http://hl7.org/fhir/us/minimal/Instance/food", "supplement", ["Pizza"]⟩

/-- Environment with the supplement system. -/
def envSupplement : Env :=
  ⟨"http://hl7.org/fhir/us/minimal", [foodCSSupplement], []⟩

/-- The exclude-only scenario: the only rule excludes an external value
set, so the logical definition has no inclusion. -/
def vsExcludeOnly : FshValueSet :=
  ⟨"BreakfastVS", none, some ⟨"Breakfast.fsh", ⟨2, 8, 4, 25⟩⟩,
    [VSRule.filterComp false none ["CandyVS"] [] none]⟩

/-- The versioned-system scenario: a simple version and a version keeping
a later pipe-delimited fragment verbatim. -/
def vsBreakfastVersions : FshValueSet :=
  ⟨"BreakfastVS", none, none,
    [VSRule.conceptComp true (some (foodUrl ++ "|2.0.1")) [] [⟨"Toast", none⟩] none,
      VSRule.conceptComp true (some "http://food.org/beverage|1.1|x") []
        [⟨"Orange juice", none⟩] none]⟩

/-- The soft-indexing caret rules of the contact scenario. -/
def contactRules : List VSRule :=
  [VSRule.caretRule [⟨"contact", SegIdx.softPlus⟩, ⟨"name", SegIdx.flat⟩]
      (JValue.str "Johnny Appleseed") none,
    VSRule.caretRule
      [⟨"contact", SegIdx.softEq⟩, ⟨"telecom", SegIdx.softPlus⟩, ⟨"rank", SegIdx.flat⟩]
      (JValue.num 1) none,
    VSRule.caretRule
      [⟨"contact", SegIdx.softEq⟩, ⟨"telecom", SegIdx.softEq⟩, ⟨"value", SegIdx.flat⟩]
      (JValue.str "email.email@email.com") none]

/-- The expected contact tree produced by the soft-indexing rules. -/
def contactTree : JValue :=
  JValue.obj
    [("contact",
      JValue.arr
        [JValue.obj
          [("name", JValue.str "Johnny Appleseed"),
            ("telecom",
              JValue.arr
                [JValue.obj
                  [("rank", JValue.num 1),
                    ("value", JValue.str "email.email@email.com")]])]])]

/-- The value set carrying the soft-indexing caret rules directly. -/
def vsApple : FshValueSet :=
  ⟨"AppleVS", none, none, contactRules⟩

/-- A second entity with the same rules, exported in the same run. -/
def vsApple2 : FshValueSet :=
  ⟨"AppleVS2", none, none, contactRules⟩

/-- Environment carrying the contact rules as a named rule set. -/
def envBar : Env :=
  ⟨"http://hl7.org/fhir/us/minimal", [], [⟨"Bar", contactRules⟩]⟩

/-- The value set pulling the contact rules in through an insert rule. -/
def vsFoo : FshValueSet :=
  ⟨"Foo", none, none, [VSRule.insertRule "Bar" none]⟩

/-- The caret-at-excluded-concept scenario. -/
def vsDinnerExcluded : FshValueSet :=
  ⟨"DinnerVS", none, none,
    [VSRule.conceptComp true (some foodUrl) []
        [⟨"Pizza", some "Delicious pizza to share."⟩,
          ⟨"Salad", some "Plenty of fresh vegetables."⟩] none,
      VSRule.conceptComp false (some foodUrl) [] [⟨"Mulch", none⟩] none,
      VSRule.codeCaretRule (foodUrl ++ "#Mulch")
        [⟨"designation", SegIdx.flat⟩, ⟨"value", SegIdx.flat⟩]
        (JValue.str "mantillo") none]⟩

/-- The concept-not-found scenario: the selector names a concept that is
neither included nor excluded. -/
def vsDinnerNotFound : FshValueSet :=
  ⟨"DinnerVS", none, none,
    [VSRule.conceptComp true (some foodUrl) []
        [⟨"Pizza", some "Delicious pizza to share."⟩,
          ⟨"Salad", some "Plenty of fresh vegetables."⟩,
          ⟨"Mulch", none⟩] none,
      VSRule.codeCaretRule (foodUrl ++ "#Bread")
        [⟨"designation", SegIdx.flat⟩, ⟨"value", SegIdx.flat⟩]
        (JValue.str "pan") (some ⟨"ValueSet.fsh", ⟨4, 3, 4, 29⟩⟩)]⟩

/-! Helper lemmas about the orchestrator fold. -/

/-- A compiled entity keeps the name of the authored entity. -/
theorem exportValueSet_name (env : Env) (vs : FshValueSet) (v : ExportedVS)
    (h : (exportValueSet env vs).1 = some v) : v.name = vs.name := by
  unfold exportValueSet at h
  split at h
  · simp at h
  · split at h
    · simp at h
    · simp only [Option.some.injEq] at h
      rw [← h]

/-- A compiled entity carries the derived id of the authored entity. -/
theorem exportValueSet_id (env : Env) (vs : FshValueSet) (v : ExportedVS)
    (h : (exportValueSet env vs).1 = some v) : v.id = (deriveId vs).1 := by
  unfold exportValueSet at h
  split at h
  · simp at h
  · split at h
    · simp at h
    · simp only [Option.some.injEq] at h
      rw [← h]

/-- A skipped entity leaves the package unchanged. -/
theorem exportStep_skip (env : Env) (st : PackageState) (vs : FshValueSet)
    (h : st.valueSets.any (fun w => w.name == vs.name) = true) :
    exportStep env st vs = st := by
  unfold exportStep
  simp [h]

/-- A failing entity only extends the diagnostics. -/
theorem exportStep_fail (env : Env) (st : PackageState) (vs : FshValueSet)
    (h1 : st.valueSets.any (fun w => w.name == vs.name) = false)
    (h2 : (exportValueSet env vs).1 = none) :
    exportStep env st vs = { st with diags := st.diags ++ (exportValueSet env vs).2 } := by
  unfold exportStep
  simp [h1, h2]

/-- A successfully compiled entity is pushed into the package. -/
theorem exportStep_success (env : Env) (st : PackageState) (vs : FshValueSet)
    (v : ExportedVS)
    (h1 : st.valueSets.any (fun w => w.name == vs.name) = false)
    (h2 : (exportValueSet env vs).1 = some v) :
    exportStep env st vs
      = pushExported { st with diags := st.diags ++ (exportValueSet env vs).2 } v vs.src := by
  unfold exportStep
  simp [h1, h2]

/-- One orchestrator step appends zero or one entity. -/
theorem exportStep_valueSets (env : Env) (st : PackageState) (vs : FshValueSet) :
    ∃ t, (exportStep env st vs).valueSets = st.valueSets ++ t := by
  cases hskip : st.valueSets.any (fun w => w.name == vs.name) with
  | true => exact ⟨[], by rw [exportStep_skip env st vs hskip]; simp⟩
  | false =>
    cases hexp : (exportValueSet env vs).1 with
    | none => exact ⟨[], by rw [exportStep_fail env st vs hskip hexp]; simp⟩
    | some v =>
      exact ⟨[v], by rw [exportStep_success env st vs v hskip hexp]; rfl⟩

/-- The orchestrator fold only appends entities. -/
theorem exportFold_valueSets (env : Env) (ds : List FshValueSet) (st : PackageState) :
    ∃ t, (exportFold env st ds).valueSets = st.valueSets ++ t := by
  induction ds generalizing st with
  | nil => exact ⟨[], by simp [exportFold]⟩
  | cons a rest ih =>
    obtain ⟨t0, h0⟩ := exportStep_valueSets env st a
    obtain ⟨t1, h1⟩ := ih (exportStep env st a)
    exact ⟨t0 ++ t1, by
      show (exportFold env (exportStep env st a) rest).valueSets = _
      rw [h1, h0, List.append_assoc]⟩

/-- Exported names persist through the rest of the fold. -/
theorem exportFold_name_mono (env : Env) (ds : List FshValueSet) (st : PackageState)
    (n : String) (h : n ∈ exportedNames st) :
    n ∈ exportedNames (exportFold env st ds) := by
  obtain ⟨t, ht⟩ := exportFold_valueSets env ds st
  unfold exportedNames at h ⊢
  rw [ht, List.map_append]
  exact List.mem_append_left _ h

/-- A successfully compiling entity of the processed list ends up named in
the package. -/
theorem exportFold_success_mem (env : Env) (vs : FshValueSet)
    (hs : ((exportValueSet env vs).1).isSome = true) :
    ∀ (ds : List FshValueSet) (st : PackageState), vs ∈ ds →
      vs.name ∈ exportedNames (exportFold env st ds) := by
  intro ds
  induction ds with
  | nil => intro st hmem; cases hmem
  | cons a rest ih =>
    intro st hmem
    rcases List.mem_cons.mp hmem with heq | htail
    · subst heq
      show vs.name ∈ exportedNames (exportFold env (exportStep env st vs) rest)
      cases hskip : st.valueSets.any (fun w => w.name == vs.name) with
      | true =>
        have hin : vs.name ∈ exportedNames st := by
          obtain ⟨w, hw, hwn⟩ := List.any_eq_true.mp hskip
          have hnm : w.name = vs.name := by simpa using hwn
          exact hnm ▸ List.mem_map_of_mem _ hw
        refine exportFold_name_mono env rest _ vs.name ?_
        rw [exportStep_skip env st vs hskip]
        exact hin
      | false =>
        cases hexp : (exportValueSet env vs).1 with
        | none => rw [hexp] at hs; simp at hs
        | some v =>
          refine exportFold_name_mono env rest _ vs.name ?_
          rw [exportStep_success env st vs v hskip hexp]
          unfold exportedNames pushExported
          simp [exportValueSet_name env vs v hexp]
    · exact ih (exportStep env st a) htail

/-- When every successfully compiling entity of the list is already in the
package, the fold adds no entity. -/
theorem exportFold_stable (env : Env) :
    ∀ (ds : List FshValueSet) (st : PackageState),
      (∀ vs ∈ ds, ((exportValueSet env vs).1).isSome = true →
        vs.name ∈ exportedNames st) →
      (exportFold env st ds).valueSets = st.valueSets := by
  intro ds
  induction ds with
  | nil => intro st _; rfl
  | cons a rest ih =>
    intro st h
    show (exportFold env (exportStep env st a) rest).valueSets = _
    cases hskip : st.valueSets.any (fun w => w.name == a.name) with
    | true =>
      rw [exportStep_skip env st a hskip]
      exact ih st (fun vs hm hs => h vs (List.mem_cons_of_mem _ hm) hs)
    | false =>
      cases hexp : (exportValueSet env a).1 with
      | some v =>
        exfalso
        have hin := h a (List.mem_cons_self a rest) (by rw [hexp]; rfl)
        obtain ⟨w, hw, hwn⟩ := List.mem_map.mp hin
        have hany : st.valueSets.any (fun w => w.name == a.name) = true :=
          List.any_eq_true.mpr ⟨w, hw, by simp [hwn]⟩
        rw [hskip] at hany; cases hany
      | none =>
        rw [exportStep_fail env st a hskip hexp]
        exact ih _ (fun vs hm hs => h vs (List.mem_cons_of_mem _ hm) hs)

/-- Appending one fresh element keeps a list duplicate-free. -/
theorem nodup_append_singleton {α : Type} (l : List α) (a : α)
    (hl : l.Nodup) (ha : a ∉ l) : (l ++ [a]).Nodup := by
  rw [List.nodup_append]
  exact ⟨hl, List.nodup_singleton a, by
    intro x hx hxa
    rw [List.mem_singleton.mp hxa] at hx
    exact ha hx⟩

/-- The orchestrator never records the same entity name twice. -/
theorem exportFold_nodup (env : Env) :
    ∀ (ds : List FshValueSet) (st : PackageState),
      (exportedNames st).Nodup → (exportedNames (exportFold env st ds)).Nodup := by
  intro ds
  induction ds with
  | nil => intro st h; exact h
  | cons a rest ih =>
    intro st h
    refine ih (exportStep env st a) ?_
    cases hskip : st.valueSets.any (fun w => w.name == a.name) with
    | true => rw [exportStep_skip env st a hskip]; exact h
    | false =>
      cases hexp : (exportValueSet env a).1 with
      | none => rw [exportStep_fail env st a hskip hexp]; exact h
      | some v =>
        rw [exportStep_success env st a v hskip hexp]
        unfold exportedNames pushExported
        simp only [List.map_append, List.map_cons, List.map_nil]
        refine nodup_append_singleton _ _ h ?_
        intro hin
        obtain ⟨w, hw, hwn⟩ := List.mem_map.mp hin
        have : st.valueSets.any (fun x => x.name == a.name) = true :=
          List.any_eq_true.mpr ⟨w, hw, by
            simp [hwn, exportValueSet_name env a v hexp]⟩
        rw [hskip] at this; cases this

/-- Repeated export calls on one orchestrator instance. -/
def exportIter (env : Env) (docs : List FshValueSet) : Nat → PackageState
  | 0 => initPackage
  | Nat.succ k => exportAll env docs (exportIter env docs k)

/-- C1: for every document set and orchestrator, export called any number
of times yields the same entity list each time, and each successfully
compiled entity appears exactly once in total: the second call does not
re-add entities already exported by the first. -/
theorem c1_export_idempotent (env : Env) (docs : List FshValueSet) :
    (exportAll env docs (exportAll env docs initPackage)).valueSets
        = (exportAll env docs initPackage).valueSets
    ∧ (∀ k, 1 ≤ k →
        (exportIter env docs k).valueSets = (exportAll env docs initPackage).valueSets)
    ∧ (exportedNames (exportAll env docs initPackage)).Nodup
    ∧ ∀ vs ∈ docs, ((exportValueSet env (expandVS env vs)).1).isSome = true →
        (exportedNames (exportAll env docs initPackage)).count vs.name = 1 := by
  have hstable : ∀ st : PackageState,
      exportedNames st = exportedNames (exportAll env docs initPackage) →
      (exportAll env docs st).valueSets = st.valueSets := by
    intro st hnm
    refine exportFold_stable env (docs.map (expandVS env)) st ?_
    intro vs' hm hs
    rw [hnm]
    exact exportFold_success_mem env vs' hs (docs.map (expandVS env)) initPackage hm
  have hiter : ∀ k, (exportIter env docs (k + 1)).valueSets
      = (exportAll env docs initPackage).valueSets := by
    intro k
    induction k with
    | zero => rfl
    | succ n ihn =>
      show (exportAll env docs (exportIter env docs (n + 1))).valueSets = _
      rw [hstable (exportIter env docs (n + 1)) (by unfold exportedNames; rw [ihn])]
      exact ihn
  refine ⟨hstable _ rfl, ?_, ?_, ?_⟩
  · intro k hk
    cases k with
    | zero => cases hk
    | succ n => exact hiter n
  · exact exportFold_nodup env (docs.map (expandVS env)) initPackage List.nodup_nil
  · intro vs hmem hs
    have hname : (expandVS env vs).name = vs.name := rfl
    have hin : vs.name ∈ exportedNames (exportAll env docs initPackage) := by
      have := exportFold_success_mem env (expandVS env vs) hs
        (docs.map (expandVS env)) initPackage (List.mem_map_of_mem _ hmem)
      rwa [hname] at this
    exact List.count_eq_one_of_mem
      (exportFold_nodup env (docs.map (expandVS env)) initPackage List.nodup_nil) hin

/-- Witness for C1 at a concrete one-entity document set. -/
theorem c1_export_idempotent_witness :
    (exportAll envMin [vsEmptyRules] (exportAll envMin [vsEmptyRules] initPackage)).valueSets
        = (exportAll envMin [vsEmptyRules] initPackage).valueSets
    ∧ (exportedNames (exportAll envMin [vsEmptyRules] initPackage)).count "BreakfastVS" = 1 := by
  have h := c1_export_idempotent envMin [vsEmptyRules]
  exact ⟨h.1, h.2.2.2 vsEmptyRules (List.mem_singleton.mpr rfl) (by rfl)⟩

/-- C2: for an entity whose name is a valid FHIR name but not a valid id,
the default id substitutes every disallowed character with a hyphen and
then truncates to 64 characters, with one warning; the name Not_good_id
derives id Not-good-id, and a 70 character valid name derives its first 64
characters as the id while the full name is retained in the output. -/
theorem c2_id_sanitization (vs : FshValueSet)
    (hid : vs.explicitId = none)
    (hname : isValidFhirName vs.name = true)
    (hnotid : isValidFhirId vs.name = false) :
    ((deriveId vs).1 = truncate64 (substituteIdChars vs.name)
      ∧ ((deriveId vs).2.filter (fun d => d.level == Level.warn)).length = 1)
    ∧ ((exportValueSet envMin vsNotGood).1.map ExportedVS.id = some "Not-good-id"
      ∧ (exportValueSet envMin vsNotGood).1.map ExportedVS.name = some "Not_good_id"
      ∧ ((exportValueSet envMin vsNotGood).2.filter (fun d => d.level == Level.warn)).length = 1)
    ∧ (name70.data.length = 70
      ∧ (exportValueSet envMin vsLong).1.map ExportedVS.id
          = some (String.mk (name70.data.take 64))
      ∧ (exportValueSet envMin vsLong).1.map ExportedVS.name = some name70
      ∧ ((exportValueSet envMin vsLong).2.filter (fun d => d.level == Level.warn)).length = 1) := by
  refine ⟨⟨?_, ?_⟩, by decide, by decide⟩
  · unfold deriveId
    rw [hid]
    simp only [hnotid, Bool.false_eq_true, if_false, hname, if_true]
    rfl
  · unfold deriveId
    rw [hid]
    simp only [hnotid, Bool.false_eq_true, if_false, hname, if_true]
    rfl

/-- Witness for C2 at the Not_good_id entity. -/
theorem c2_id_sanitization_witness :
    (deriveId vsNotGood).1 = truncate64 (substituteIdChars vsNotGood.name)
    ∧ ((deriveId vsNotGood).2.filter (fun d => d.level == Level.warn)).length = 1 := by
  have h := c2_id_sanitization vsNotGood rfl (by decide) (by decide)
  exact h.1

/-- C3 counterexample: on two value sets sharing the explicit id
my-value-set, the duplicate-id diagnostic comes out at error level and no
duplicate-id diagnostic is emitted at warning level, against the claim
that the diagnostic is a warning. -/
theorem c3_duplicate_id_level_counterexample :
    ((exportAll envMin [vsFirst, vsSecond] initPackage).diags.filter
        (fun d => d.kind == DiagKind.duplicateId))
      = [⟨Level.error, DiagKind.duplicateId, "Multiple value sets with id my-value-set",
          some ⟨"ValueSets.fsh", ⟨7, 8, 9, 19⟩⟩⟩]
    ∧ ((exportAll envMin [vsFirst, vsSecond] initPackage).diags.filter
        (fun d => d.kind == DiagKind.duplicateId && d.level == Level.warn)).length = 0
    ∧ (exportAll envMin [vsFirst, vsSecond] initPackage).valueSets.length = 2 := by
  decide

/-- C3 (amended): two same-kind entities whose final ids agree trigger the
duplicate-id diagnostic at error level, attributed to the second
occurrence, and both entities remain in the exported output. -/
theorem c3_duplicate_id_error (env : Env) (vs1 vs2 : FshValueSet) (v1 v2 : ExportedVS)
    (h1 : (exportValueSet env (expandVS env vs1)).1 = some v1)
    (h2 : (exportValueSet env (expandVS env vs2)).1 = some v2)
    (hid : v1.id = v2.id)
    (hnm : vs1.name ≠ vs2.name) :
    (exportAll env [vs1, vs2] initPackage).valueSets = [v1, v2]
    ∧ (⟨Level.error, DiagKind.duplicateId, "Multiple value sets with id " ++ v2.id,
        vs2.src⟩ : Diagnostic) ∈ (exportAll env [vs1, vs2] initPackage).diags := by
  have hname1 : v1.name = vs1.name := exportValueSet_name env (expandVS env vs1) v1 h1
  have hskip1 : (initPackage.valueSets.any fun w => w.name == (expandVS env vs1).name) = false :=
    rfl
  have hstep1 : exportStep env initPackage (expandVS env vs1)
      = pushExported
          { initPackage with
            diags := initPackage.diags ++ (exportValueSet env (expandVS env vs1)).2 }
          v1 (expandVS env vs1).src :=
    exportStep_success env initPackage (expandVS env vs1) v1 hskip1 h1
  have hunfold : exportAll env [vs1, vs2] initPackage
      = exportStep env (exportStep env initPackage (expandVS env vs1)) (expandVS env vs2) := rfl
  have hskip2 : ((exportStep env initPackage (expandVS env vs1)).valueSets.any
      fun w => w.name == (expandVS env vs2).name) = false := by
    rw [hstep1]
    show ([v1].any fun w => w.name == vs2.name) = false
    simp [hname1, hnm]
  have hstep2 : exportStep env (exportStep env initPackage (expandVS env vs1)) (expandVS env vs2)
      = pushExported
          { exportStep env initPackage (expandVS env vs1) with
            diags := (exportStep env initPackage (expandVS env vs1)).diags
              ++ (exportValueSet env (expandVS env vs2)).2 }
          v2 (expandVS env vs2).src :=
    exportStep_success env _ (expandVS env vs2) v2 hskip2 h2
  constructor
  · rw [hunfold, hstep2]
    unfold pushExported
    rw [hstep1]
    rfl
  · rw [hunfold, hstep2]
    unfold pushExported
    have hany : (({ exportStep env initPackage (expandVS env vs1) with
        diags := (exportStep env initPackage (expandVS env vs1)).diags
          ++ (exportValueSet env (expandVS env vs2)).2 }).valueSets.any
        fun w => w.id == v2.id) = true := by
      show ((exportStep env initPackage (expandVS env vs1)).valueSets.any
        fun w => w.id == v2.id) = true
      rw [hstep1]
      show ([v1].any fun w => w.id == v2.id) = true
      simp [hid]
    rw [hany]
    exact List.mem_append_right _ (List.mem_singleton_self _)

/-- Witness for the amended C3 at two concrete entities sharing an id. -/
theorem c3_duplicate_id_error_witness :
    (exportAll envMin [vsFirst, vsSecond] initPackage).valueSets.length = 2 := by
  have h := c3_duplicate_id_error envMin vsFirst vsSecond
    ⟨"FirstVS", "my-value-set", [], [], JValue.null,
      some ⟨"ValueSets.fsh", ⟨2, 8, 5, 15⟩⟩⟩
    ⟨"SecondVS", "my-value-set", [], [], JValue.null,
      some ⟨"ValueSets.fsh", ⟨7, 8, 9, 19⟩⟩⟩
    rfl rfl rfl (by decide)
  rw [h.1]
  rfl

/-- The provenance map stays in lock step with the exported entity list. -/
theorem exportFold_fshMap (env : Env) :
    ∀ (ds : List FshValueSet) (st : PackageState),
      st.fshMap = st.valueSets.map (fun v => (outputKey v, fshMapEntry v)) →
      (exportFold env st ds).fshMap
        = (exportFold env st ds).valueSets.map (fun v => (outputKey v, fshMapEntry v)) := by
  intro ds
  induction ds with
  | nil => intro st h; exact h
  | cons a rest ih =>
    intro st h
    refine ih (exportStep env st a) ?_
    cases hskip : st.valueSets.any (fun w => w.name == a.name) with
    | true => rw [exportStep_skip env st a hskip]; exact h
    | false =>
      cases hexp : (exportValueSet env a).1 with
      | none => rw [exportStep_fail env st a hskip hexp]; exact h
      | some v =>
        rw [exportStep_success env st a v hskip hexp]
        unfold pushExported
        show st.fshMap ++ [(outputKey v, fshMapEntry v)]
          = (st.valueSets ++ [v]).map (fun v => (outputKey v, fshMapEntry v))
        rw [List.map_append, h]
        rfl

/-- C4 counterexample: the provenance key of MyValueSet carries the output
file extension: the map holds an entry keyed ValueSet-MyValueSet.json and
no entry keyed exactly ValueSet-MyValueSet. -/
theorem c4_fshmap_key_counterexample :
    (exportAll envMin [vsMy] initPackage).fshMap.lookup "ValueSet-MyValueSet" = none
    ∧ (exportAll envMin [vsMy] initPackage).fshMap.lookup "ValueSet-MyValueSet.json"
        = some ⟨"VS.fsh", ⟨3, 6, 30, 34⟩, "MyValueSet", "ValueSet"⟩ := by
  decide

/-- C4 (amended): the provenance map holds exactly one entry per top-level
exported entity, keyed by kind, id and the output extension, whose value
carries the source file, source location, entity name and entity kind. -/
theorem c4_fshmap_provenance (env : Env) (docs : List FshValueSet) :
    (exportAll env docs initPackage).fshMap
      = (exportAll env docs initPackage).valueSets.map
          (fun v => ("ValueSet-" ++ v.id ++ ".json",
            ⟨srcFile v.src, srcLoc v.src, v.name, "ValueSet"⟩)) :=
  exportFold_fshMap env (docs.map (expandVS env)) initPackage rfl

/-- The identity triples of the concepts of one group. -/
def groupTriples (g : ComposeGroup) : List (Option String × Option String × String) :=
  g.concepts.map (fun c => (g.system, g.version, c.code))

/-- The identity triples present across a polarity bucket. -/
def bucketTriples : List ComposeGroup → List (Option String × Option String × String)
  | [] => []
  | g :: rest => groupTriples g ++ bucketTriples rest

/-- The duplicate check tests exactly membership of the identity triple. -/
theorem bucketHasTriple_iff (sys ver : Option String) (code : String) :
    ∀ gs : List ComposeGroup,
      bucketHasTriple gs sys ver code = true ↔ (sys, ver, code) ∈ bucketTriples gs := by
  intro gs
  induction gs with
  | nil => simp [bucketHasTriple, bucketTriples]
  | cons g rest ih =>
    simp only [bucketHasTriple, List.any_cons, Bool.or_eq_true, bucketTriples,
      List.mem_append] at *
    constructor
    · intro h
      rcases h with h | h
      · left
        simp only [Bool.and_eq_true, decide_eq_true_eq, groupHasCode, List.any_eq_true,
          beq_iff_eq] at h
        obtain ⟨⟨hs, hv⟩, c, hc, hcode⟩ := h
        exact List.mem_map.mpr ⟨c, hc, by rw [hs, hv, hcode]⟩
      · right; exact ih.mp h
    · intro h
      rcases h with h | h
      · left
        obtain ⟨c, hc, heq⟩ := List.mem_map.mp h
        have h1 : g.system = sys := congrArg Prod.fst heq
        have h2 : g.version = ver := congrArg (fun p => p.2.1) heq
        have h3 : c.code = code := congrArg (fun p => p.2.2) heq
        simp only [Bool.and_eq_true, decide_eq_true_eq, groupHasCode, List.any_eq_true,
          beq_iff_eq]
        exact ⟨⟨h1, h2⟩, c, hc, h3⟩
      · right; exact ih.mpr h

/-- Appending one concept permutes the identity triples of the bucket with
one new triple appended. -/
theorem bucketTriples_addConcept_perm (sys ver : Option String) (vsRefs : List String)
    (c : FshCode) :
    ∀ gs : List ComposeGroup,
      (bucketTriples (addConceptToGroups gs sys ver vsRefs c)).Perm
        (bucketTriples gs ++ [(sys, ver, c.code)]) := by
  intro gs
  induction gs with
  | nil =>
    show (bucketTriples [⟨sys, ver, vsRefs, [⟨c.code, c.display, JValue.null⟩], []⟩]).Perm _
    simp [bucketTriples, groupTriples]
  | cons g rest ih =>
    unfold addConceptToGroups
    by_cases hk : groupKey g = (sys, ver, vsRefs)
    · rw [if_pos hk]
      have hs : g.system = sys := congrArg (fun p => p.1) hk
      have hv : g.version = ver := congrArg (fun p => p.2.1) hk
      have hgt : groupTriples { g with concepts := g.concepts ++ [⟨c.code, c.display, JValue.null⟩] }
          = groupTriples g ++ [(g.system, g.version, c.code)] := by
        simp [groupTriples]
      show (groupTriples { g with concepts := g.concepts ++ [⟨c.code, c.display, JValue.null⟩] }
          ++ bucketTriples rest).Perm
        ((groupTriples g ++ bucketTriples rest) ++ [(sys, ver, c.code)])
      rw [hgt, hs, hv]
      have h1 : ((groupTriples g ++ [(sys, ver, c.code)]) ++ bucketTriples rest).Perm
          (groupTriples g ++ ([(sys, ver, c.code)] ++ bucketTriples rest)) := by
        rw [List.append_assoc]
      have h2 : (groupTriples g ++ ([(sys, ver, c.code)] ++ bucketTriples rest)).Perm
          (groupTriples g ++ (bucketTriples rest ++ [(sys, ver, c.code)])) :=
        List.Perm.append_left _ List.perm_append_comm
      have h3 : (groupTriples g ++ (bucketTriples rest ++ [(sys, ver, c.code)])).Perm
          ((groupTriples g ++ bucketTriples rest) ++ [(sys, ver, c.code)]) := by
        rw [List.append_assoc]
      exact (h1.trans h2).trans h3
    · rw [if_neg hk]
      show (groupTriples g ++ bucketTriples (addConceptToGroups rest sys ver vsRefs c)).Perm
        ((groupTriples g ++ bucketTriples rest) ++ [(sys, ver, c.code)])
      have h1 : (groupTriples g ++ bucketTriples (addConceptToGroups rest sys ver vsRefs c)).Perm
          (groupTriples g ++ (bucketTriples rest ++ [(sys, ver, c.code)])) :=
        List.Perm.append_left _ ih
      have h2 : (groupTriples g ++ (bucketTriples rest ++ [(sys, ver, c.code)])).Perm
          ((groupTriples g ++ bucketTriples rest) ++ [(sys, ver, c.code)]) := by
        rw [List.append_assoc]
      exact h1.trans h2

/-- Appending a fresh empty group at the end changes no identity triple. -/
theorem bucketTriples_append_empty (sys ver : Option String) (vsRefs : List String) :
    ∀ gs : List ComposeGroup,
      bucketTriples (gs ++ [⟨sys, ver, vsRefs, [], []⟩]) = bucketTriples gs := by
  intro gs
  induction gs with
  | nil => rfl
  | cons g rest ih =>
    show groupTriples g ++ bucketTriples (rest ++ [⟨sys, ver, vsRefs, [], []⟩])
      = groupTriples g ++ bucketTriples rest
    rw [ih]

/-- Finding or creating a group changes no identity triple. -/
theorem bucketTriples_ensureGroup (gs : List ComposeGroup) (sys ver : Option String)
    (vsRefs : List String) :
    bucketTriples (ensureGroup gs sys ver vsRefs) = bucketTriples gs := by
  unfold ensureGroup
  split
  · rfl
  · exact bucketTriples_append_empty sys ver vsRefs gs

/-- Appending filters changes no identity triple. -/
theorem bucketTriples_addFilters (sys ver : Option String) (vsRefs : List String)
    (fs : List VSFilter) :
    ∀ gs : List ComposeGroup,
      bucketTriples (addFiltersToGroups gs sys ver vsRefs fs) = bucketTriples gs := by
  intro gs
  induction gs with
  | nil => simp [addFiltersToGroups, bucketTriples, groupTriples]
  | cons g rest ih =>
    unfold addFiltersToGroups
    split
    · rfl
    · simp only [bucketTriples] at *
      rw [ih]

/-- Duplicate suppression keeps the identity triples of a bucket free of
repetition while the codes of a rule are appended. -/
theorem addRuleCodes_nodup (vsName : String) (sys ver : Option String) (vsRefs : List String)
    (src : Option SourceInfo) :
    ∀ (codes : List FshCode) (gs : List ComposeGroup),
      (bucketTriples gs).Nodup →
      (bucketTriples (addRuleCodes vsName sys ver vsRefs src codes gs).1).Nodup := by
  intro codes
  induction codes with
  | nil => intro gs h; exact h
  | cons c rest ih =>
    intro gs h
    unfold addRuleCodes
    cases hdup : bucketHasTriple gs sys ver c.code with
    | true => simp only [if_true]; exact ih gs h
    | false =>
      simp only [Bool.false_eq_true, if_false]
      refine ih _ ?_
      rw [(bucketTriples_addConcept_perm sys ver vsRefs c gs).nodup_iff]
      refine nodup_append_singleton _ _ h ?_
      intro hmem
      rw [(bucketHasTriple_iff sys ver c.code gs).mpr hmem] at hdup
      cases hdup

/-- Processing one component rule keeps both buckets free of repeated
identity triples. -/
theorem processComponent_nodup (env : Env) (vsName : String) (st : ComposeState) (r : VSRule)
    (hinc : (bucketTriples st.includes).Nodup) (hexc : (bucketTriples st.excludes).Nodup) :
    (bucketTriples (processComponent env vsName st r).includes).Nodup
    ∧ (bucketTriples (processComponent env vsName st r).excludes).Nodup := by
  cases r with
  | conceptComp included fromSys fromVS concepts src =>
    cases included with
    | true =>
      constructor
      · refine addRuleCodes_nodup vsName _ _ fromVS src concepts _ ?_
        rw [bucketTriples_ensureGroup]
        exact hinc
      · exact hexc
    | false =>
      constructor
      · exact hinc
      · refine addRuleCodes_nodup vsName _ _ fromVS src concepts _ ?_
        rw [bucketTriples_ensureGroup]
        exact hexc
  | filterComp included fromSys fromVS filters src =>
    cases included with
    | true =>
      constructor
      · show (bucketTriples (addFiltersToGroups (ensureGroup st.includes _ _ fromVS) _ _ fromVS filters)).Nodup
        rw [bucketTriples_addFilters, bucketTriples_ensureGroup]
        exact hinc
      · exact hexc
    | false =>
      constructor
      · exact hinc
      · show (bucketTriples (addFiltersToGroups (ensureGroup st.excludes _ _ fromVS) _ _ fromVS filters)).Nodup
        rw [bucketTriples_addFilters, bucketTriples_ensureGroup]
        exact hexc
  | caretRule p v src => exact ⟨hinc, hexc⟩
  | codeCaretRule sel p v src => exact ⟨hinc, hexc⟩
  | insertRule n src => exact ⟨hinc, hexc⟩

/-- The assembled buckets of any entity carry each identity triple at most
once. -/
theorem composeStateOf_nodup (env : Env) (vsName : String) :
    ∀ (rules : List VSRule) (st : ComposeState),
      (bucketTriples st.includes).Nodup → (bucketTriples st.excludes).Nodup →
      (bucketTriples (rules.foldl (processComponent env vsName) st).includes).Nodup
      ∧ (bucketTriples (rules.foldl (processComponent env vsName) st).excludes).Nodup := by
  intro rules
  induction rules with
  | nil => intro st h1 h2; exact ⟨h1, h2⟩
  | cons r rest ih =>
    intro st h1 h2
    have hr := processComponent_nodup env vsName st r h1 h2
    exact ih (processComponent env vsName st r) hr.1 hr.2

/-- C5: within one polarity every identity triple of system, version and
code appears at most once in the assembled output of any entity; on the
concrete duplicate scenario the re-included concepts stay under the first
rule group in first-seen order, one warning is emitted per duplicate
occurrence naming the already-included code (version-qualified when a
version is present) at the duplicate rule location, and occurrences under
different versions of one system are kept distinct. -/
theorem c5_duplicate_suppression (env : Env) (vs : FshValueSet) :
    ((bucketTriples (composeStateOf env vs).includes).Nodup
      ∧ (bucketTriples (composeStateOf env vs).excludes).Nodup)
    ∧ (exportValueSet envMin vsDinnerDup).1 = some
        ⟨"DinnerVS", "DinnerVS",
          [⟨some foodUrl, none, [],
            [⟨"Pizza", some "Delicious pizza to share.", JValue.null⟩,
              ⟨"Salad", some "Plenty of fresh vegetables.", JValue.null⟩,
              ⟨"Toast", none, JValue.null⟩], []⟩,
            ⟨some foodUrl, some "2.0.1", [],
              [⟨"Toast", none, JValue.null⟩, ⟨"Waffles", none, JValue.null⟩], []⟩],
          [], JValue.null, none⟩
    ∧ (exportValueSet envMin vsDinnerDup).2 =
        [⟨Level.warn, DiagKind.duplicateConcept,
          "ValueSet DinnerVS already includes http://food.org/food#Pizza",
          some ⟨"Dinner.fsh", ⟨3, 0, 4, 16⟩⟩⟩,
          ⟨Level.warn, DiagKind.duplicateConcept,
            "ValueSet DinnerVS already includes http://food.org/food#Salad",
            some ⟨"Dinner.fsh", ⟨6, 0, 6, 18⟩⟩⟩,
          ⟨Level.warn, DiagKind.duplicateConcept,
            "ValueSet DinnerVS already includes http://food.org/food|2.0.1#Toast",
            some ⟨"Dinner.fsh", ⟨7, 0, 9, 19⟩⟩⟩] := by
  exact ⟨composeStateOf_nodup env vs.name vs.rules ⟨[], [], []⟩ List.nodup_nil List.nodup_nil,
    rfl, rfl⟩

/-- Filtering away a list whose members all satisfy an incompatible test. -/
theorem filter_eq_nil_of_all {α : Type} (p q : α → Bool) :
    ∀ l : List α, l.all p = true → (∀ a, p a = true → q a = false) →
      l.filter q = [] := by
  intro l
  induction l with
  | nil => intro _ _; rfl
  | cons a rest ih =>
    intro hall hpq
    simp only [List.all_cons, Bool.and_eq_true] at hall
    simp [List.filter_cons, hpq a hall.1, ih hall.2 hpq]

/-- Filtering keeps a list whose members all satisfy a stronger test. -/
theorem filter_eq_self_of_all {α : Type} (p q : α → Bool) :
    ∀ l : List α, l.all p = true → (∀ a, p a = true → q a = true) →
      l.filter q = l := by
  intro l
  induction l with
  | nil => intro _ _; rfl
  | cons a rest ih =>
    intro hall hpq
    simp only [List.all_cons, Bool.and_eq_true] at hall
    simp [List.filter_cons, hpq a hall.1, ih hall.2 hpq]

/-- Duplicate suppression emits only duplicate-concept warnings. -/
theorem addRuleCodes_kinds (vsName : String) (sys ver : Option String) (vsRefs : List String)
    (src : Option SourceInfo) :
    ∀ (codes : List FshCode) (gs : List ComposeGroup),
      ((addRuleCodes vsName sys ver vsRefs src codes gs).2).all
        (fun d => d.kind == DiagKind.duplicateConcept && d.level == Level.warn) = true := by
  intro codes
  induction codes with
  | nil => intro gs; rfl
  | cons c rest ih =>
    intro gs
    unfold addRuleCodes
    cases hdup : bucketHasTriple gs sys ver c.code with
    | true =>
      simp only [if_true, List.all_cons, Bool.and_eq_true]
      exact ⟨⟨rfl, rfl⟩, by
        have := ih gs
        simp only [Bool.and_eq_true] at this ⊢
        exact this⟩
    | false =>
      simp only [Bool.false_eq_true, if_false]
      exact ih (addConceptToGroups gs sys ver vsRefs c)

/-- The membership check emits only missing-code errors. -/
theorem missingCodesDiag_kinds (env : Env) (base : String) (codes : List FshCode)
    (src : Option SourceInfo) :
    (missingCodesDiag env base codes src).all
      (fun d => d.kind == DiagKind.missingCode && d.level == Level.error) = true := by
  unfold missingCodesDiag
  split
  · rfl
  · split
    · split
      · rfl
      · rfl
    · rfl

/-- A system that resolves locally but is not declared complete is not
authoritative: the membership check emits nothing. -/
theorem missingCodesDiag_not_complete (env : Env) (base : String) (codes : List FshCode)
    (src : Option SourceInfo) (cs : LocalCodeSystem)
    (h : resolveSystem env base = some cs) (hc : cs.content ≠ "complete") :
    missingCodesDiag env base codes src = [] := by
  unfold missingCodesDiag
  simp only [h]
  rw [if_neg hc]

/-- A complete system with codes absent from its enumeration yields one
single error for the whole rule, listing the missing codes. -/
theorem missingCodesDiag_complete (env : Env) (base : String) (codes : List FshCode)
    (src : Option SourceInfo) (cs : LocalCodeSystem)
    (h : resolveSystem env base = some cs) (hc : cs.content = "complete")
    (hm : codes.filter (fun c => !(cs.codes.contains c.code)) ≠ []) :
    missingCodesDiag env base codes src
      = [⟨Level.error, DiagKind.missingCode,
          missingCodeMessage base
            ((codes.filter (fun c => !(cs.codes.contains c.code))).map FshCode.code), src⟩] := by
  unfold missingCodesDiag
  simp only [h]
  rw [if_pos hc]

/-- The missing-code diagnostics contributed by one concept rule are
exactly those of its membership check, after the duplicate warnings. -/
theorem processComponent_missing_filter (env : Env) (vsName : String) (st : ComposeState)
    (inc : Bool) (s : String) (fromVS : List String) (codes : List FshCode)
    (src : Option SourceInfo) :
    (processComponent env vsName st (VSRule.conceptComp inc (some s) fromVS codes src)).diags.filter
        (fun d => d.kind == DiagKind.missingCode)
      = st.diags.filter (fun d => d.kind == DiagKind.missingCode)
        ++ missingCodesDiag env (splitSystemVersion s).1 codes src := by
  have hdup : ∀ (gs : List ComposeGroup) (sys ver : Option String),
      ((addRuleCodes vsName sys ver fromVS src codes gs).2).filter
        (fun d => d.kind == DiagKind.missingCode) = [] := by
    intro gs sys ver
    refine filter_eq_nil_of_all _ _ _ (addRuleCodes_kinds vsName sys ver fromVS src codes gs) ?_
    intro d hd
    simp only [Bool.and_eq_true, beq_iff_eq] at hd
    simp [hd.1]
  have hmem : (missingCodesDiag env (splitSystemVersion s).1 codes src).filter
      (fun d => d.kind == DiagKind.missingCode)
      = missingCodesDiag env (splitSystemVersion s).1 codes src := by
    refine filter_eq_self_of_all _ _ _
      (missingCodesDiag_kinds env (splitSystemVersion s).1 codes src) ?_
    intro d hd
    simp only [Bool.and_eq_true, beq_iff_eq] at hd
    simp [hd.1]
  unfold processComponent
  cases inc with
  | true =>
    simp only [if_true]
    rw [List.filter_append, List.filter_append, hdup, hmem]
    simp
  | false =>
    simp only [Bool.false_eq_true, if_false]
    rw [List.filter_append, List.filter_append, hdup, hmem]
    simp

/-- C6: a concept rule against a local system declared complete emits one
single error for the whole rule when codes are missing from its
enumeration (singular phrasing for one code, plural listing for several)
while the concepts still appear in the output; the identical absence
against a fragment, example or supplement system emits zero errors. -/
theorem c6_completeness_gating (env : Env) (vsName : String) (st : ComposeState)
    (inc : Bool) (s : String) (fromVS : List String) (codes : List FshCode)
    (src : Option SourceInfo) (cs : LocalCodeSystem)
    (hres : resolveSystem env (splitSystemVersion s).1 = some cs) :
    ((cs.content ≠ "complete" →
        (processComponent env vsName st
            (VSRule.conceptComp inc (some s) fromVS codes src)).diags.filter
            (fun d => d.kind == DiagKind.missingCode)
          = st.diags.filter (fun d => d.kind == DiagKind.missingCode))
      ∧ (cs.content = "complete" →
          codes.filter (fun c => !(cs.codes.contains c.code)) ≠ [] →
          (processComponent env vsName st
              (VSRule.conceptComp inc (some s) fromVS codes src)).diags.filter
              (fun d => d.kind == DiagKind.missingCode)
            = st.diags.filter (fun d => d.kind == DiagKind.missingCode)
              ++ [⟨Level.error, DiagKind.missingCode,
                  missingCodeMessage (splitSystemVersion s).1
                    ((codes.filter (fun c => !(cs.codes.contains c.code))).map FshCode.code),
                  src⟩]))
    ∧ ((exportValueSet envComplete vsDinnerMissing).1 = some
        ⟨"DinnerVS", "DinnerVS",
          [⟨some "http://hl7.org/fhir/us/minimal/CodeSystem/food", none, [],
            [⟨"Pizza", some "Delicious pizza to share.", JValue.null⟩,
              ⟨"Salad", some "Plenty of fresh vegetables.", JValue.null⟩], []⟩],
          [], JValue.null, none⟩
      ∧ (exportValueSet envComplete vsDinnerMissing).2 =
          [⟨Level.error, DiagKind.missingCode,
            "Code \"Salad\" is not defined for system FoodCS.",
            some ⟨"ValueSets.fsh", ⟨12, 0, 13, 22⟩⟩⟩])
    ∧ ((exportValueSet envCompleteUrl vsDinnerMissingTwo).2 =
          [⟨Level.error, DiagKind.missingCode,
            "Codes \"Salad\", \"Mulch\" are not defined for system FoodCS.",
            some ⟨"ValueSets.fsh", ⟨12, 0, 13, 22⟩⟩⟩]
      ∧ ((exportValueSet envCompleteUrl vsDinnerMissingTwo).1.map
          (fun v => (v.includes.map (fun g => g.concepts.map VSConcept.code))))
          = some [["Pizza", "Salad", "Mulch"]])
    ∧ (exportValueSet envFragment vsDinnerMissing).2 = []
    ∧ ((exportValueSet envFragment vsDinnerMissing).1.map
          (fun v => (v.includes.map (fun g => g.concepts.map VSConcept.code))))
        = some [["Pizza", "Salad"]]
    ∧ (exportValueSet envSupplement vsDinnerMissing).2 = [] := by
  refine ⟨⟨?_, ?_⟩, ⟨rfl, rfl⟩, ⟨rfl, rfl⟩, rfl, rfl, rfl⟩
  · intro hnc
    rw [processComponent_missing_filter env vsName st inc s fromVS codes src,
      missingCodesDiag_not_complete env (splitSystemVersion s).1 codes src cs hres hnc]
    simp
  · intro hc hm
    rw [processComponent_missing_filter env vsName st inc s fromVS codes src,
      missingCodesDiag_complete env (splitSystemVersion s).1 codes src cs hres hc hm]

/-- Witness for C6 at the complete food system with one missing code. -/
theorem c6_completeness_gating_witness :
    (processComponent envComplete "DinnerVS" ⟨[], [], []⟩
        (VSRule.conceptComp true (some "FoodCS") []
          [⟨"Pizza", some "Delicious pizza to share."⟩,
            ⟨"Salad", some "Plenty of fresh vegetables."⟩]
          (some ⟨"ValueSets.fsh", ⟨12, 0, 13, 22⟩⟩))).diags.filter
        (fun d => d.kind == DiagKind.missingCode)
      = [⟨Level.error, DiagKind.missingCode,
          "Code \"Salad\" is not defined for system FoodCS.",
          some ⟨"ValueSets.fsh", ⟨12, 0, 13, 22⟩⟩⟩] := by
  have h := c6_completeness_gating envComplete "DinnerVS" ⟨[], [], []⟩ true "FoodCS" []
    [⟨"Pizza", some "Delicious pizza to share."⟩,
      ⟨"Salad", some "Plenty of fresh vegetables."⟩]
    (some ⟨"ValueSets.fsh", ⟨12, 0, 13, 22⟩⟩) foodCSComplete rfl
  have h2 := h.1.2 rfl (by decide)
  rw [h2]
  rfl

/-- Weakening the test satisfied by all members of a list. -/
theorem all_imp {α : Type} (p q : α → Bool) (h : ∀ a, p a = true → q a = true) :
    ∀ l : List α, l.all p = true → l.all q = true := by
  intro l
  induction l with
  | nil => intro _; rfl
  | cons a rest ih =>
    intro hall
    simp only [List.all_cons, Bool.and_eq_true] at hall ⊢
    exact ⟨h a hall.1, ih hall.2⟩

/-- A rule that is not an inclusion component leaves the include bucket
unchanged. -/
theorem processComponent_includes_not_included (env : Env) (vsName : String)
    (st : ComposeState) (r : VSRule) (h : isIncludedComponent r = false) :
    (processComponent env vsName st r).includes = st.includes := by
  cases r with
  | conceptComp included fromSys fromVS concepts src =>
    cases included with
    | true => cases h
    | false => rfl
  | filterComp included fromSys fromVS filters src =>
    cases included with
    | true => cases h
    | false => rfl
  | caretRule p v src => rfl
  | codeCaretRule sel p v src => rfl
  | insertRule n src => rfl

/-- Without inclusion components the include bucket stays as it began. -/
theorem composeFold_includes_empty (env : Env) (vsName : String) :
    ∀ (rules : List VSRule) (st : ComposeState),
      rules.all (fun r => !isIncludedComponent r) = true →
      (rules.foldl (processComponent env vsName) st).includes = st.includes := by
  intro rules
  induction rules with
  | nil => intro st _; rfl
  | cons r rest ih =>
    intro st hall
    simp only [List.all_cons, Bool.and_eq_true] at hall
    show (rest.foldl (processComponent env vsName) (processComponent env vsName st r)).includes
      = st.includes
    rw [ih (processComponent env vsName st r) hall.2]
    refine processComponent_includes_not_included env vsName st r ?_
    have h1 := hall.1
    simp only [Bool.not_eq_true'] at h1
    exact h1

/-- The compose assembler emits only duplicate-concept warnings and
missing-code errors. -/
theorem processComponent_diag_kinds (env : Env) (vsName : String)
    (st : ComposeState) (r : VSRule)
    (h : st.diags.all
      (fun d => d.kind == DiagKind.duplicateConcept || d.kind == DiagKind.missingCode) = true) :
    (processComponent env vsName st r).diags.all
      (fun d => d.kind == DiagKind.duplicateConcept || d.kind == DiagKind.missingCode) = true := by
  cases r with
  | conceptComp included fromSys fromVS concepts src =>
    have hdup : ∀ (sys ver : Option String) (gs : List ComposeGroup),
        ((addRuleCodes vsName sys ver fromVS src concepts gs).2).all
          (fun d => d.kind == DiagKind.duplicateConcept || d.kind == DiagKind.missingCode)
          = true := by
      intro sys ver gs
      refine all_imp _ _ ?_ _ (addRuleCodes_kinds vsName sys ver fromVS src concepts gs)
      intro d hd
      simp only [Bool.and_eq_true] at hd
      simp [hd.1]
    have hmem : ∀ base, (missingCodesDiag env base concepts src).all
        (fun d => d.kind == DiagKind.duplicateConcept || d.kind == DiagKind.missingCode)
        = true := by
      intro base
      refine all_imp _ _ ?_ _ (missingCodesDiag_kinds env base concepts src)
      intro d hd
      simp only [Bool.and_eq_true] at hd
      simp [hd.1]
    cases included with
    | true =>
      show ((st.diags ++ _ ++ _).all _) = true
      simp only [List.all_append, Bool.and_eq_true]
      refine ⟨⟨h, hdup _ _ _⟩, ?_⟩
      cases fromSys with
      | some s => exact hmem _
      | none => rfl
    | false =>
      show ((st.diags ++ _ ++ _).all _) = true
      simp only [List.all_append, Bool.and_eq_true]
      refine ⟨⟨h, hdup _ _ _⟩, ?_⟩
      cases fromSys with
      | some s => exact hmem _
      | none => rfl
  | filterComp included fromSys fromVS filters src =>
    cases included with
    | true => exact h
    | false => exact h
  | caretRule p v src => exact h
  | codeCaretRule sel p v src => exact h
  | insertRule n src => exact h

/-- Diagnostic kinds across the whole compose assembly of one entity. -/
theorem composeStateOf_diag_kinds (env : Env) (vsName : String) :
    ∀ (rules : List VSRule) (st : ComposeState),
      st.diags.all
        (fun d => d.kind == DiagKind.duplicateConcept || d.kind == DiagKind.missingCode) = true →
      (rules.foldl (processComponent env vsName) st).diags.all
        (fun d => d.kind == DiagKind.duplicateConcept || d.kind == DiagKind.missingCode) = true := by
  intro rules
  induction rules with
  | nil => intro st h; exact h
  | cons r rest ih =>
    intro st h
    exact ih (processComponent env vsName st r) (processComponent_diag_kinds env vsName st r h)

/-- Identity derivation emits only the id diagnostics. -/
theorem deriveId_kinds (vs : FshValueSet) :
    (deriveId vs).2.all
      (fun d => d.kind == DiagKind.idSanitized || d.kind == DiagKind.otherKind) = true := by
  unfold deriveId
  split
  · rfl
  · split
    · rfl
    · split
      · rfl
      · rfl

/-- C7 counterexample: an entity with no rules at all contains no concept
or filter inclusion component, yet it is exported and yields no
diagnostic, against the claim that every such entity is dropped with one
missing-inclusion error. -/
theorem c7_missing_inclusion_counterexample :
    (exportValueSet envMin vsEmptyRules).1.map ExportedVS.name = some "BreakfastVS"
    ∧ (exportValueSet envMin vsEmptyRules).2 = []
    ∧ (exportAll envMin [vsEmptyRules] initPackage).valueSets.length = 1 :=
  ⟨rfl, rfl, rfl⟩

/-- C7 (amended): an entity carrying at least one component rule but no
inclusion component is dropped from the output with exactly one
missing-inclusion error citing the entity location. -/
theorem c7_missing_inclusion (env : Env) (vs : FshValueSet)
    (hcomp : vs.rules.any isComponentRule = true)
    (hninc : vs.rules.all (fun r => !isIncludedComponent r) = true) :
    (exportValueSet env vs).1 = none
    ∧ (exportValueSet env vs).2.filter (fun d => d.kind == DiagKind.missingInclusion)
        = [⟨Level.error, DiagKind.missingInclusion, missingInclusionMessage vs.name, vs.src⟩]
    ∧ ∀ st : PackageState, (exportStep env st vs).valueSets = st.valueSets := by
  have hinc : (composeStateOf env vs).includes = [] := by
    unfold composeStateOf
    exact composeFold_includes_empty env vs.name vs.rules ⟨[], [], []⟩ hninc
  have hcond : (vs.rules.any isComponentRule
      && (composeStateOf env vs).includes.isEmpty) = true := by
    rw [hinc, hcomp]
    rfl
  have hval : exportValueSet env vs
      = (none, (deriveId vs).2 ++ (composeStateOf env vs).diags ++
          [⟨Level.error, DiagKind.missingInclusion, missingInclusionMessage vs.name, vs.src⟩]) := by
    unfold exportValueSet
    rw [if_pos hcond]
  have hnil1 : (deriveId vs).2.filter (fun d => d.kind == DiagKind.missingInclusion) = [] := by
    refine filter_eq_nil_of_all
      (fun d : Diagnostic => d.kind == DiagKind.idSanitized || d.kind == DiagKind.otherKind)
      (fun d : Diagnostic => d.kind == DiagKind.missingInclusion) _ (deriveId_kinds vs) ?_
    intro d hd
    rcases Bool.or_eq_true .. |>.mp hd with h1 | h1 <;>
      simp only [beq_iff_eq] at h1 <;> simp [h1]
  have hkinds : (composeStateOf env vs).diags.all
      (fun d => d.kind == DiagKind.duplicateConcept || d.kind == DiagKind.missingCode) = true :=
    composeStateOf_diag_kinds env vs.name vs.rules ⟨[], [], []⟩ rfl
  have hnil2 : (composeStateOf env vs).diags.filter
      (fun d => d.kind == DiagKind.missingInclusion) = [] := by
    refine filter_eq_nil_of_all
      (fun d : Diagnostic => d.kind == DiagKind.duplicateConcept || d.kind == DiagKind.missingCode)
      (fun d : Diagnostic => d.kind == DiagKind.missingInclusion) _ hkinds ?_
    intro d hd
    rcases Bool.or_eq_true .. |>.mp hd with h1 | h1 <;>
      simp only [beq_iff_eq] at h1 <;> simp [h1]
  refine ⟨by rw [hval], ?_, ?_⟩
  · rw [hval]
    show ((deriveId vs).2 ++ (composeStateOf env vs).diags ++ _).filter _ = _
    rw [List.filter_append, List.filter_append, hnil1, hnil2]
    rfl
  · intro st
    cases hskip : st.valueSets.any (fun w => w.name == vs.name) with
    | true => rw [exportStep_skip env st vs hskip]
    | false =>
      rw [exportStep_fail env st vs hskip (by rw [hval])]

/-- Witness for the amended C7 at the exclude-only entity. -/
theorem c7_missing_inclusion_witness :
    (exportValueSet envMin vsExcludeOnly).1 = none
    ∧ (exportValueSet envMin vsExcludeOnly).2.filter
        (fun d => d.kind == DiagKind.missingInclusion)
      = [⟨Level.error, DiagKind.missingInclusion, missingInclusionMessage "BreakfastVS",
          some ⟨"Breakfast.fsh", ⟨2, 8, 4, 25⟩⟩⟩] := by
  have h := c7_missing_inclusion envMin vsExcludeOnly rfl rfl
  exact ⟨h.1, h.2.1⟩

/-- Breaking at the first separator after a separator-free head. -/
theorem breakAtChar_append (sep : Char) :
    ∀ (l r : List Char), sep ∉ l → breakAtChar sep (l ++ sep :: r) = (l, some r) := by
  intro l r
  induction l with
  | nil => intro _; simp [breakAtChar]
  | cons c cs ih =>
    intro hni
    have hc : ¬ c = sep := fun hc => hni (by rw [hc]; exact List.mem_cons_self _ _)
    simp only [List.cons_append, breakAtChar, if_neg hc, List.append_eq]
    rw [ih (fun hm => hni (List.mem_cons_of_mem c hm))]

/-- Breaking a separator-free list yields the whole list and no tail. -/
theorem breakAtChar_none (sep : Char) :
    ∀ l : List Char, sep ∉ l → breakAtChar sep l = (l, none) := by
  intro l
  induction l with
  | nil => intro _; rfl
  | cons c cs ih =>
    intro hni
    have hc : ¬ c = sep := fun hc => hni (by rw [hc]; exact List.mem_cons_self _ _)
    simp only [breakAtChar, if_neg hc]
    rw [ih (fun hm => hni (List.mem_cons_of_mem c hm))]

/-- C8: a system reference splits at the first pipe into system and
version, later pipe-delimited non-numeric fragments staying verbatim
inside the version: U with version 1.2.3 gives key (U, 1.2.3), U with
1.1 and a trailing x gives key (U, 1.1|x), and the assembler emits the
parts as the separate system and version fields of the compose group. -/
theorem c8_version_splitting (u v : String) (hu : '|' ∉ u.data) :
    (splitSystemVersion (u ++ "|" ++ v) = (u, some v)
      ∧ splitSystemVersion u = (u, none))
    ∧ splitSystemVersion "U|1.2.3" = ("U", some "1.2.3")
    ∧ splitSystemVersion "U|1.1|x" = ("U", some "1.1|x")
    ∧ (exportValueSet envMin vsBreakfastVersions).1 = some
        ⟨"BreakfastVS", "BreakfastVS",
          [⟨some foodUrl, some "2.0.1", [], [⟨"Toast", none, JValue.null⟩], []⟩,
            ⟨some "http://food.org/beverage", some "1.1|x", [],
              [⟨"Orange juice", none, JValue.null⟩], []⟩],
          [], JValue.null, none⟩ := by
  obtain ⟨ud⟩ := u
  obtain ⟨vd⟩ := v
  refine ⟨⟨?_, ?_⟩, by decide, by decide, rfl⟩
  · unfold splitSystemVersion
    have hdata : ((⟨ud⟩ : String) ++ "|" ++ ⟨vd⟩).data = ud ++ '|' :: vd := by
      rw [String.data_append, String.data_append, List.append_assoc]
      rfl
    rw [hdata, breakAtChar_append '|' ud vd hu]
    rfl
  · unfold splitSystemVersion
    rw [breakAtChar_none '|' ud hu]
    rfl

/-- Witness for C8 at the concrete system and version of the claim. -/
theorem c8_version_splitting_witness :
    splitSystemVersion ("U" ++ "|" ++ "1.2.3") = ("U", some "1.2.3")
    ∧ splitSystemVersion "U" = ("U", none) := by
  have h := c8_version_splitting "U" "1.2.3" (by decide)
  exact h.1

/-- C9: within one rule-application pass a plus index resolves to the next
free slot of its exact path key and advances the per-key counter, an
equals index reuses the index most recently produced for that key, so the
paths a-plus b-plus followed by a-equals b-equals target the very element
the first pair created; the pass over the contact rules builds one contact
holding one telecom entry, rules spliced in from a rule set behave
identically, and the transient state is fresh per traversal, two entities
with the same rules resolving independently to the same tree. -/
theorem c9_soft_indexing :
    resolvePaths []
        [[⟨"a", SegIdx.softPlus⟩, ⟨"b", SegIdx.softPlus⟩],
          [⟨"a", SegIdx.softEq⟩, ⟨"b", SegIdx.softEq⟩]]
      = [[("a", some 0), ("b", some 0)], [("a", some 0), ("b", some 0)]]
    ∧ resolvePaths []
        [[⟨"a", SegIdx.softPlus⟩], [⟨"a", SegIdx.softPlus⟩], [⟨"a", SegIdx.softEq⟩]]
      = [[("a", some 0)], [("a", some 1)], [("a", some 1)]]
    ∧ (exportValueSet envMin vsApple).1.map ExportedVS.caretData = some contactTree
    ∧ (exportValueSet envBar (expandVS envBar vsFoo)).1.map ExportedVS.caretData
        = some contactTree
    ∧ (exportAll envMin [vsApple, vsApple2] initPackage).valueSets.map ExportedVS.caretData
        = [contactTree, contactTree] :=
  ⟨by decide, by decide, rfl, rfl, rfl⟩

/-- Applying a caret assignment inside a concept list never changes the
codes of the list. -/
theorem applyInConcepts_codes {β : Type} (f : String → β) (path : List (String × Option Nat))
    (v : JValue) (code : String) :
    ∀ cs : List VSConcept,
      (applyInConcepts path v code cs).map (fun c => f c.code) = cs.map (fun c => f c.code) := by
  intro cs
  induction cs with
  | nil => rfl
  | cons c rest ih =>
    unfold applyInConcepts
    split
    · rfl
    · simp only [List.map_cons]
      rw [ih]

/-- Applying a caret assignment at a selected concept never changes the
identity triples of the bucket. -/
theorem bucketTriples_applyInGroups (sys : String) (ver : Option String) (code : String)
    (path : List (String × Option Nat)) (v : JValue) :
    ∀ gs : List ComposeGroup,
      bucketTriples (applyInGroups sys ver code path v gs) = bucketTriples gs := by
  intro gs
  induction gs with
  | nil => rfl
  | cons g rest ih =>
    unfold applyInGroups
    split
    · show groupTriples { g with concepts := applyInConcepts path v code g.concepts }
          ++ bucketTriples rest
        = groupTriples g ++ bucketTriples rest
      have hc : groupTriples { g with concepts := applyInConcepts path v code g.concepts }
          = groupTriples g :=
        applyInConcepts_codes (fun code => (g.system, g.version, code)) path v code g.concepts
      rw [hc]
    · show groupTriples g ++ bucketTriples (applyInGroups sys ver code path v rest)
        = groupTriples g ++ bucketTriples rest
      rw [ih]

/-- One code caret rule never creates or deletes a concept. -/
theorem applyCodeCaretRule_triples (env : Env) (inc exc : List ComposeGroup)
    (selector : String) (path : List Seg) (v : JValue) (src : Option SourceInfo) :
    bucketTriples (applyCodeCaretRule env inc exc selector path v src).1 = bucketTriples inc
    ∧ bucketTriples (applyCodeCaretRule env inc exc selector path v src).2.1
        = bucketTriples exc := by
  unfold applyCodeCaretRule
  split
  · exact ⟨bucketTriples_applyInGroups _ _ _ _ _ inc, rfl⟩
  · split
    · exact ⟨rfl, bucketTriples_applyInGroups _ _ _ _ _ exc⟩
    · exact ⟨rfl, rfl⟩

/-- No sequence of code caret rules creates or deletes a concept. -/
theorem applyCodeCaretRules_triples (env : Env) :
    ∀ (rules : List VSRule) (inc exc : List ComposeGroup),
      bucketTriples (applyCodeCaretRules env rules inc exc).1 = bucketTriples inc
      ∧ bucketTriples (applyCodeCaretRules env rules inc exc).2.1 = bucketTriples exc := by
  intro rules
  induction rules with
  | nil => intro inc exc; exact ⟨rfl, rfl⟩
  | cons r rest ih =>
    intro inc exc
    cases r with
    | codeCaretRule selector path v src =>
      have h1 := applyCodeCaretRule_triples env inc exc selector path v src
      have h2 := ih (applyCodeCaretRule env inc exc selector path v src).1
        (applyCodeCaretRule env inc exc selector path v src).2.1
      show bucketTriples (applyCodeCaretRules env rest _ _).1 = _
        ∧ bucketTriples (applyCodeCaretRules env rest _ _).2.1 = _
      exact ⟨h2.1.trans h1.1, h2.2.trans h1.2⟩
    | conceptComp included fromSys fromVS concepts src => exact ih inc exc
    | filterComp included fromSys fromVS filters src => exact ih inc exc
    | caretRule p v src => exact ih inc exc
    | insertRule n src => exact ih inc exc

/-- A code caret rule whose selector matches no assembled concept is
skipped with a single concept-not-found error and changes nothing. -/
theorem applyCodeCaretRule_not_found (env : Env) (inc exc : List ComposeGroup)
    (selector : String) (path : List Seg) (v : JValue) (src : Option SourceInfo)
    (hni : inc.any (fun g => groupMatchesSelector g
      (resolvedSystemUrl env (parseSelector selector).1)
      (parseSelector selector).2.1 (parseSelector selector).2.2) = false)
    (hne : exc.any (fun g => groupMatchesSelector g
      (resolvedSystemUrl env (parseSelector selector).1)
      (parseSelector selector).2.1 (parseSelector selector).2.2) = false) :
    applyCodeCaretRule env inc exc selector path v src
      = (inc, exc,
        [⟨Level.error, DiagKind.conceptNotFound,
          "Could not find concept "
            ++ sysWithVer (some (resolvedSystemUrl env (parseSelector selector).1))
              (parseSelector selector).2.1
            ++ "#" ++ (parseSelector selector).2.2 ++ ", skipping rule.", src⟩]) := by
  unfold applyCodeCaretRule
  rw [hni, hne]
  rfl

/-- C10: a caret rule addressed at a concept through a system and code
selector applies its assignment to a concept already present in the
assembled inclusion or exclusion list, never creates a concept, and with
no matching concept fails with one concept-not-found error while only
that rule is skipped and the rest of the output is unchanged. -/
theorem c10_concept_selector (env : Env) (rules : List VSRule) (inc exc : List ComposeGroup)
    (selector : String) (path : List Seg) (v : JValue) (src : Option SourceInfo)
    (hni : inc.any (fun g => groupMatchesSelector g
      (resolvedSystemUrl env (parseSelector selector).1)
      (parseSelector selector).2.1 (parseSelector selector).2.2) = false)
    (hne : exc.any (fun g => groupMatchesSelector g
      (resolvedSystemUrl env (parseSelector selector).1)
      (parseSelector selector).2.1 (parseSelector selector).2.2) = false) :
    (bucketTriples (applyCodeCaretRules env rules inc exc).1 = bucketTriples inc
      ∧ bucketTriples (applyCodeCaretRules env rules inc exc).2.1 = bucketTriples exc)
    ∧ applyCodeCaretRule env inc exc selector path v src
        = (inc, exc,
          [⟨Level.error, DiagKind.conceptNotFound,
            "Could not find concept "
              ++ sysWithVer (some (resolvedSystemUrl env (parseSelector selector).1))
                (parseSelector selector).2.1
              ++ "#" ++ (parseSelector selector).2.2 ++ ", skipping rule.", src⟩])
    ∧ ((exportValueSet envMin vsDinnerExcluded).1 = some
        ⟨"DinnerVS", "DinnerVS",
          [⟨some foodUrl, none, [],
            [⟨"Pizza", some "Delicious pizza to share.", JValue.null⟩,
              ⟨"Salad", some "Plenty of fresh vegetables.", JValue.null⟩], []⟩],
          [⟨some foodUrl, none, [],
            [⟨"Mulch", none,
              JValue.obj [("designation", JValue.obj [("value", JValue.str "mantillo")])]⟩], []⟩],
          JValue.null, none⟩
      ∧ (exportValueSet envMin vsDinnerExcluded).2 = [])
    ∧ ((exportValueSet envMin vsDinnerNotFound).1 = some
        ⟨"DinnerVS", "DinnerVS",
          [⟨some foodUrl, none, [],
            [⟨"Pizza", some "Delicious pizza to share.", JValue.null⟩,
              ⟨"Salad", some "Plenty of fresh vegetables.", JValue.null⟩,
              ⟨"Mulch", none, JValue.null⟩], []⟩],
          [], JValue.null, none⟩
      ∧ (exportValueSet envMin vsDinnerNotFound).2 =
          [⟨Level.error, DiagKind.conceptNotFound,
            "Could not find concept http://food.org/food#Bread, skipping rule.",
            some ⟨"ValueSet.fsh", ⟨4, 3, 4, 29⟩⟩⟩]) :=
  ⟨applyCodeCaretRules_triples env rules inc exc,
    applyCodeCaretRule_not_found env inc exc selector path v src hni hne,
    ⟨rfl, rfl⟩, ⟨rfl, rfl⟩⟩

/-- Witness for C10 at empty buckets and the Bread selector. -/
theorem c10_concept_selector_witness :
    applyCodeCaretRule envMin [] [] "http://food.org/food#Bread"
        [⟨"designation", SegIdx.flat⟩, ⟨"value", SegIdx.flat⟩] (JValue.str "pan")
        (some ⟨"ValueSet.fsh", ⟨4, 3, 4, 29⟩⟩)
      = ([], [],
        [⟨Level.error, DiagKind.conceptNotFound,
          "Could not find concept http://food.org/food#Bread, skipping rule.",
          some ⟨"ValueSet.fsh", ⟨4, 3, 4, 29⟩⟩⟩]) := by
  have h := c10_concept_selector envMin [] [] [] "http://food.org/food#Bread"
    [⟨"designation", SegIdx.flat⟩, ⟨"value", SegIdx.flat⟩] (JValue.str "pan")
    (some ⟨"ValueSet.fsh", ⟨4, 3, 4, 29⟩⟩) rfl rfl
  rw [h.2.1]
  rfl

end SushiVS
